import Mathlib

set_option maxRecDepth 40000

/-!
Verification of the multi-modal watermarking engine (backend/watermarking)
against its natural-language specification.

The development shallowly embeds the Python source: byte strings become
`List Nat` (each element < 256), machine integers become `Nat`/`Int` with
explicit `% 2^32` where the source wraps, and fallible code returns
`Option`/`Except`.  Floating-point-only quantities (FFT spectra, Z-scores,
similarity scores) are abstracted as parameters or modelled over `ℚ`; every
claim settled here is independent of the abstracted float values, and each
abstraction is documented at its definition.
-/

namespace WM

/-- 32-bit wrap-around, mirroring Python's `& 0xFFFF_FFFF` on `Nat`. -/
def w32 (x : Nat) : Nat := x % 4294967296

/-- Right rotation of a 32-bit word. -/
def rotr (n x : Nat) : Nat := w32 ((x >>> n) ||| (x <<< (32 - n)))

/-- SHA-256 small sigma 0. -/
def ssig0 (x : Nat) : Nat := (rotr 7 x) ^^^ (rotr 18 x) ^^^ (x >>> 3)

/-- SHA-256 small sigma 1. -/
def ssig1 (x : Nat) : Nat := (rotr 17 x) ^^^ (rotr 19 x) ^^^ (x >>> 10)

/-- SHA-256 big sigma 0. -/
def bsig0 (x : Nat) : Nat := (rotr 2 x) ^^^ (rotr 13 x) ^^^ (rotr 22 x)

/-- SHA-256 big sigma 1. -/
def bsig1 (x : Nat) : Nat := (rotr 6 x) ^^^ (rotr 11 x) ^^^ (rotr 25 x)

/-- SHA-256 choice function. -/
def chF (x y z : Nat) : Nat := (x &&& y) ^^^ ((x ^^^ 4294967295) &&& z)

/-- SHA-256 majority function. -/
def majF (x y z : Nat) : Nat := (x &&& y) ^^^ (x &&& z) ^^^ (y &&& z)

/-- SHA-256 round constants. -/
def shaK : List Nat :=
  [1116352408, 1899447441, 3049323471, 3921009573,
   961987163, 1508970993, 2453635748, 2870763221,
   3624381080, 310598401, 607225278, 1426881987,
   1925078388, 2162078206, 2614888103, 3248222580,
   3835390401, 4022224774, 264347078, 604807628,
   770255983, 1249150122, 1555081692, 1996064986,
   2554220882, 2821834349, 2952996808, 3210313671,
   3336571891, 3584528711, 113926993, 338241895,
   666307205, 773529912, 1294757372, 1396182291,
   1695183700, 1986661051, 2177026350, 2456956037,
   2730485921, 2820302411, 3259730800, 3345764771,
   3516065817, 3600352804, 4094571909, 275423344,
   430227734, 506948616, 659060556, 883997877,
   958139571, 1322822218, 1537002063, 1747873779,
   1955562222, 2024104815, 2227730452, 2361852424,
   2428436474, 2756734187, 3204031479, 3329325298]

/-- SHA-256 initial hash state. -/
def shaInit : List Nat :=
  [1779033703, 3144134277, 1013904242, 2773480762,
   1359893119, 2600822924, 528734635, 1541459225]

/-- Group a byte list into big-endian 32-bit words. -/
def bytesToWords : List Nat → List Nat
  | b0 :: b1 :: b2 :: b3 :: rest =>
      (((b0 * 256 + b1) * 256 + b2) * 256 + b3) :: bytesToWords rest
  | _ => []

/-- Extend the 16 message-schedule words to 64 (`k` more steps). -/
def extendW : List Nat → Nat → List Nat
  | ws, 0 => ws
  | ws, k + 1 =>
      let i := ws.length
      let w := w32 (ssig1 (ws.getD (i - 2) 0) + ws.getD (i - 7) 0 +
                    ssig0 (ws.getD (i - 15) 0) + ws.getD (i - 16) 0)
      extendW (ws ++ [w]) k

/-- One SHA-256 compression round on the 8-word working state. -/
def shaStep (k w a b c d e f g h : Nat) : List Nat :=
  let t1 := w32 (h + bsig1 e + chF e f g + k + w)
  let t2 := w32 (bsig0 a + majF a b c)
  [w32 (t1 + t2), a, b, c, w32 (d + t1), e, f, g]

/-- Run the 64 compression rounds over paired (round constant, schedule word). -/
def shaRounds : List (Nat × Nat) → List Nat → List Nat
  | [], st => st
  | (k, w) :: rest, st =>
      shaRounds rest (shaStep k w (st.getD 0 0) (st.getD 1 0) (st.getD 2 0)
        (st.getD 3 0) (st.getD 4 0) (st.getD 5 0) (st.getD 6 0) (st.getD 7 0))

/-- Compress one 64-byte block into the running hash state. -/
def shaCompress (h : List Nat) (block : List Nat) : List Nat :=
  let ws := extendW (bytesToWords block) 48
  let st := shaRounds (shaK.zip ws) h
  (h.zip st).map (fun p => w32 (p.1 + p.2))

/-- Big-endian 8-byte encoding of a natural number (for the SHA length field). -/
def be64 (n : Nat) : List Nat :=
  [(n >>> 56) &&& 255, (n >>> 48) &&& 255, (n >>> 40) &&& 255, (n >>> 32) &&& 255,
   (n >>> 24) &&& 255, (n >>> 16) &&& 255, (n >>> 8) &&& 255, n &&& 255]

/-- Big-endian 4-byte encoding of a 32-bit value (`struct.pack(">I", ·)`). -/
def be32 (n : Nat) : List Nat :=
  [(n >>> 24) &&& 255, (n >>> 16) &&& 255, (n >>> 8) &&& 255, n &&& 255]

/-- Big-endian 4-byte decoding (`struct.unpack(">I", ·)`). -/
def beToNat (bs : List Nat) : Nat := bs.foldl (fun acc b => acc * 256 + b) 0

/-- SHA-256 message padding: 0x80, zeros to 56 mod 64, 64-bit bit length. -/
def shaPad (msg : List Nat) : List Nat :=
  let ml := msg.length
  let zeros := (119 - ml % 64) % 64
  msg ++ 0x80 :: List.replicate zeros 0 ++ be64 (ml * 8)

/-- Split a byte list into 64-byte chunks (structural fuel recursion). -/
def chunks64 : Nat → List Nat → List (List Nat)
  | 0, _ => []
  | _, [] => []
  | fuel + 1, bs => bs.take 64 :: chunks64 fuel (bs.drop 64)

/-- Convert one 32-bit word to 4 big-endian bytes. -/
def wordBytes (w : Nat) : List Nat :=
  [(w >>> 24) &&& 255, (w >>> 16) &&& 255, (w >>> 8) &&& 255, w &&& 255]

/-- SHA-256 digest of a byte list (32 bytes). -/
def sha256 (msg : List Nat) : List Nat :=
  let padded := shaPad msg
  let hs := (chunks64 padded.length padded).foldl shaCompress shaInit
  (hs.map wordBytes).flatten

/-- HMAC-SHA-256 (block size 64), as in Python's `hmac` module. -/
def hmacSha256 (key msg : List Nat) : List Nat :=
  let k0 := if 64 < key.length then sha256 key else key
  let kp := k0 ++ List.replicate (64 - k0.length) 0
  sha256 ((kp.map (fun b => b ^^^ 0x5c)) ++
          sha256 ((kp.map (fun b => b ^^^ 0x36)) ++ msg))

/-- One lowercase hex digit. -/
def hexDigit (n : Nat) : Char :=
  if n < 10 then Char.ofNat (48 + n) else Char.ofNat (87 + n)

/-- Lowercase hex rendering of a byte list (`bytes.hex()` / `.hexdigest()`). -/
def bytesToHex (bs : List Nat) : String :=
  String.mk (bs.flatMap (fun b => [hexDigit (b / 16), hexDigit (b % 16)]))

/-! ### UTF-8 codec

`str.encode("utf-8")` and `bytes.decode("utf-8", errors="replace")` from the
source.  The decoder is exact on valid UTF-8; on invalid input it emits
U+FFFD and resynchronises one byte at a time (CPython consumes maximal
invalid subsequences, but no claim below evaluates the decoder on invalid
bytes). -/

/-- UTF-8 encoding of a single scalar value. -/
def utf8Char (c : Char) : List Nat :=
  let n := c.toNat
  if n < 0x80 then [n]
  else if n < 0x800 then [0xC0 + n / 64, 0x80 + n % 64]
  else if n < 0x10000 then
    [0xE0 + n / 4096, 0x80 + (n / 64) % 64, 0x80 + n % 64]
  else
    [0xF0 + n / 262144, 0x80 + (n / 4096) % 64, 0x80 + (n / 64) % 64, 0x80 + n % 64]

/-- `s.encode("utf-8")`. -/
def utf8Encode (s : String) : List Nat := s.data.flatMap utf8Char

/-- The U+FFFD replacement character. -/
def replChar : Char := Char.ofNat 0xFFFD

/-- Continuation byte test. -/
def isCont (b : Nat) : Bool := 0x80 ≤ b && b < 0xC0

/-- Decode one UTF-8 sequence headed by `b`: the decoded character and the
undecoded remainder.  Invalid sequences yield U+FFFD consuming the head byte. -/
def utf8Step (b : Nat) (bs : List Nat) : Char × List Nat :=
  if b < 0x80 then (Char.ofNat b, bs)
  else if 0xC2 ≤ b && b ≤ 0xDF then
    match bs with
    | b2 :: rest =>
      if isCont b2 then (Char.ofNat ((b - 0xC0) * 64 + (b2 - 0x80)), rest)
      else (replChar, bs)
    | [] => (replChar, [])
  else if 0xE0 ≤ b && b ≤ 0xEF then
    match bs with
    | b2 :: b3 :: rest =>
      if (if b = 0xE0 then 0xA0 ≤ b2 && b2 < 0xC0
          else if b = 0xED then 0x80 ≤ b2 && b2 < 0xA0
          else isCont b2) && isCont b3 then
        (Char.ofNat ((b - 0xE0) * 4096 + (b2 - 0x80) * 64 + (b3 - 0x80)), rest)
      else (replChar, bs)
    | _ => (replChar, bs)
  else if 0xF0 ≤ b && b ≤ 0xF4 then
    match bs with
    | b2 :: b3 :: b4 :: rest =>
      if (if b = 0xF0 then 0x90 ≤ b2 && b2 < 0xC0
          else if b = 0xF4 then 0x80 ≤ b2 && b2 < 0x90
          else isCont b2) && isCont b3 && isCont b4 then
        (Char.ofNat ((b - 0xF0) * 262144 + (b2 - 0x80) * 4096 +
            (b3 - 0x80) * 64 + (b4 - 0x80)), rest)
      else (replChar, bs)
    | _ => (replChar, bs)
  else (replChar, bs)

/-- UTF-8 decode loop; one fuel unit per decoded character suffices because
every step consumes at least the head byte. -/
def utf8DecodeAux : Nat → List Nat → List Char
  | 0, _ => []
  | _ + 1, [] => []
  | fuel + 1, b :: bs =>
    let s := utf8Step b bs
    s.1 :: utf8DecodeAux fuel s.2

/-- `bytes.decode("utf-8", errors="replace")`. -/
def utf8Decode (bs : List Nat) : String := String.mk (utf8DecodeAux bs.length bs)

/-! ### Python string helpers -/

/-- The characters Python `str.split()` (no argument) treats as whitespace. -/
def pySpaceCodes : List Nat :=
  [0x09, 0x0A, 0x0B, 0x0C, 0x0D, 0x1C, 0x1D, 0x1E, 0x1F, 0x20, 0x85, 0xA0,
   0x1680, 0x2000, 0x2001, 0x2002, 0x2003, 0x2004, 0x2005, 0x2006, 0x2007,
   0x2008, 0x2009, 0x200A, 0x2028, 0x2029, 0x202F, 0x205F, 0x3000]

/-- Whitespace test for `str.split()`. -/
def pyIsSpace (c : Char) : Bool := pySpaceCodes.contains c.toNat

/-- Accumulator-based whitespace tokenizer (`str.split()` with no argument):
splits on runs of whitespace and drops empty tokens.  `acc` holds the
current in-progress token in reverse. -/
def pySplitAux : List Char → List Char → List (List Char)
  | [], acc => if acc.isEmpty then [] else [acc.reverse]
  | c :: cs, acc =>
    if pyIsSpace c then
      if acc.isEmpty then pySplitAux cs [] else acc.reverse :: pySplitAux cs []
    else pySplitAux cs (c :: acc)

/-- `text.split()`. -/
def pySplit (s : String) : List String :=
  (pySplitAux s.data []).map String.mk

/-- The punctuation characters stripped by the text engine:
`".,!?;:\"'()[]" ++ braces ++ "\n\r\t"` (braces and the single quote are
built from code points). -/
def stripSet : List Char :=
  ['.', ',', '!', '?', ';', ':', '"', Char.ofNat 39, '(', ')', '[', ']',
   Char.ofNat 123, Char.ofNat 125, '\n', '\r', '\t']

/-- `s.strip(chars)`: remove the given characters from both ends. -/
def pyStrip (chars : List Char) (s : List Char) : List Char :=
  ((s.dropWhile (chars.contains ·)).reverse.dropWhile (chars.contains ·)).reverse

/-- ASCII case lowering; models `str.lower()` (the source only lowers words
before hashing them, and no claim depends on non-ASCII case mapping). -/
def pyLowerChar (c : Char) : Char :=
  if 65 ≤ c.toNat && c.toNat ≤ 90 then Char.ofNat (c.toNat + 32) else c

/-- `word.strip(".,!?;:\"'()[]" ++ braces ++ "\n\r\t").lower()` — the word
normalisation used by `_word_to_token_id`, `_is_carrier` and `_carrier_copy`. -/
def cleanWord (w : String) : String :=
  String.mk ((pyStrip stripSet w.data).map pyLowerChar)

/-! ### Signed payload codec (`watermarking/payload.py`) -/

/-- Python exceptions that the embedded code can raise. -/
inductive PyErr where
  | typeError
  | indexError
  deriving DecidableEq, Repr

/-- `MAGIC = b"\x57\x4d"`. -/
def MAGIC : List Nat := [0x57, 0x4d]

/-- `_MODEL_LEN = 16`. -/
def MODEL_LEN : Nat := 16

/-- `_CTX_LEN = 8`. -/
def CTX_LEN : Nat := 8

/-- `PAYLOAD_BYTES = 2 + 4 + 16 + 8 + 4 = 34`. -/
def PAYLOAD_BYTES : Nat := 2 + 4 + MODEL_LEN + CTX_LEN + 4

/-- `PAYLOAD_BITS = 272`. -/
def PAYLOAD_BITS : Nat := PAYLOAD_BYTES * 8

/-- `bs.ljust(n, b"\x00")`: right-pad with zero bytes to length `n`. -/
def ljustZero (n : Nat) (bs : List Nat) : List Nat :=
  bs ++ List.replicate (n - bs.length) 0

/-- `bs.rstrip(b"\x00")`: drop trailing zero bytes. -/
def rstripZero (bs : List Nat) : List Nat :=
  (bs.reverse.dropWhile (· = 0)).reverse

/-- `(s or None)` on the decoded string: Python's `or` maps `""` to `None`. -/
def strOrNone (s : String) : Option String :=
  if s = "" then none else some s

/-- The timestamp parse in `build_payload`:
`int(datetime.fromisoformat(timestamp).timestamp())` is an external library
call, abstracted as a parameter `pyFromIso` (`none` models the exception
path); on failure the source substitutes `int(time.time())`, abstracted as
`pyNow`.  The result is wrapped with `& 0xFFFF_FFFF`. -/
def tsU32 (pyFromIso : String → Option Int) (pyNow : Int) (timestamp : String) : Nat :=
  (((pyFromIso timestamp).getD pyNow).emod 4294967296).toNat

/-- The `pre_auth` prefix of `build_payload`:
`magic ∥ ts_be32 ∥ model₁₆ ∥ ctx₈` (30 bytes). -/
def payloadPreAuth (pyFromIso : String → Option Int) (pyNow : Int)
    (model_name : Option String) (timestamp : String)
    (context : Option String) : List Nat :=
  MAGIC ++ be32 (tsU32 pyFromIso pyNow timestamp) ++
    ljustZero MODEL_LEN ((utf8Encode (model_name.getD "")).take MODEL_LEN) ++
    ljustZero CTX_LEN ((utf8Encode (context.getD "")).take CTX_LEN)

/-- `build_payload(model_name, timestamp, key, context)`: 34-byte
self-authenticating payload `pre_auth ∥ tag₄`. -/
def buildPayload (pyFromIso : String → Option Int) (pyNow : Int)
    (model_name : Option String) (timestamp : String) (key : List Nat)
    (context : Option String) : List Nat :=
  let preAuth := payloadPreAuth pyFromIso pyNow model_name timestamp context
  preAuth ++ (hmacSha256 key preAuth).take 4

/-- The dict returned by a successful `parse_payload`. -/
structure ParsedPayload where
  model_name : Option String
  timestamp_unix : Nat
  context : Option String
  valid : Bool
  deriving DecidableEq, Repr

/-- `parse_payload(raw, key)`: authenticate and decode a 34-byte payload;
`None` on short input, magic mismatch or auth-tag mismatch
(`hmac.compare_digest` on equal-length byte strings is equality). -/
def parsePayload (raw : List Nat) (key : List Nat) : Option ParsedPayload :=
  if raw.length < PAYLOAD_BYTES then none
  else
    let pl := raw.take PAYLOAD_BYTES
    if pl.take 2 ≠ MAGIC then none
    else
      let preLen := 2 + 4 + MODEL_LEN + CTX_LEN
      let preAuth := pl.take preLen
      let claimedTag := (pl.drop preLen).take 4
      let expectedTag := (hmacSha256 key preAuth).take 4
      if claimedTag ≠ expectedTag then none
      else
        let tsInt := beToNat ((pl.drop 2).take 4)
        let modelName := strOrNone (utf8Decode (rstripZero ((pl.drop 6).take MODEL_LEN)))
        let ctxStr := strOrNone (utf8Decode (rstripZero ((pl.drop (6 + MODEL_LEN)).take CTX_LEN)))
        some ⟨modelName, tsInt, ctxStr, true⟩

/-- `to_bits`: bytes to bits, MSB first. -/
def toBits (data : List Nat) : List Nat :=
  data.flatMap (fun b =>
    [(b >>> 7) &&& 1, (b >>> 6) &&& 1, (b >>> 5) &&& 1, (b >>> 4) &&& 1,
     (b >>> 3) &&& 1, (b >>> 2) &&& 1, (b >>> 1) &&& 1, b &&& 1])

/-- Chunk a (zero-padded) bit list into bytes, MSB first. -/
def bitsToBytes : Nat → List Nat → List Nat
  | 0, _ => []
  | _, [] => []
  | fuel + 1, bits =>
    ((bits.take 8).foldl (fun acc b => acc * 2 + b) 0) :: bitsToBytes fuel (bits.drop 8)

/-- `from_bits`: pad with 0 bits to a byte boundary, then pack MSB first. -/
def fromBits (bits : List Nat) : List Nat :=
  let padded := bits ++ List.replicate ((8 - bits.length % 8) % 8) 0
  bitsToBytes padded.length padded

/-- `derive_wm_id(model_name, timestamp_unix, key)`:
`SHA256(K ∥ ts_be32 ∥ model₁₆).hexdigest()`.  A `None` timestamp models the
call `None & 0xFFFF_FFFF`, which raises `TypeError` in Python, hence the
`Except` result. -/
def deriveWmId (model_name : Option String) (timestamp_unix : Option Int)
    (key : List Nat) : Except PyErr String :=
  match timestamp_unix with
  | none => .error .typeError
  | some t =>
    let tsB := be32 (t.emod 4294967296).toNat
    let modelB := ljustZero MODEL_LEN ((utf8Encode (model_name.getD "")).take MODEL_LEN)
    .ok (bytesToHex (sha256 (key ++ tsB ++ modelB)))

/-! ### Text engine (`watermarking/text_watermark.py`)

The statistical (KGW) layer is read-only at embed time and feeds only the
float fields `z_score` / `confidence` at verify time; it depends on MD5
token ids, a Mersenne-Twister green set and float arithmetic, so its two
outcomes (`Z > z_threshold` and the sigmoid confidence) enter the model as
abstract parameters.  Every claim settled below is independent of them. -/

/-- `REDUNDANCY = 5`. -/
def REDUNDANCY : Nat := 5

/-- U+200B Zero-Width Space (payload bits (0,0)). -/
def zw00 : Char := Char.ofNat 0x200B

/-- U+200C Zero-Width Non-Joiner (payload bits (0,1)). -/
def zw01 : Char := Char.ofNat 0x200C

/-- U+200D Zero-Width Joiner (payload bits (1,0)). -/
def zw10 : Char := Char.ofNat 0x200D

/-- U+2060 Word Joiner (payload bits (1,1)). -/
def zw11 : Char := Char.ofNat 0x2060

/-- `ZW_SET`: the four invisible code points. -/
def zwSet : List Char := [zw00, zw01, zw10, zw11]

/-- `ZW_ENC[(b0, b1)]` (the bit arguments are always 0 or 1). -/
def zwEnc (b0 b1 : Nat) : Char :=
  if b0 = 0 then (if b1 = 0 then zw00 else zw01)
  else (if b1 = 0 then zw10 else zw11)

/-- `ZW_DEC[c]` (only applied to members of `zwSet`). -/
def zwDec (c : Char) : Nat × Nat :=
  if c = zw00 then (0, 0) else if c = zw01 then (0, 1)
  else if c = zw10 then (1, 0) else (1, 1)

/-- `_is_carrier(word, key)`: low bit of
`SHA256(key ∥ b"\x00carrier\x00" ∥ cleaned)[0]`; empty cleaned word is
never a carrier. -/
def isCarrier (word : String) (key : List Nat) : Bool :=
  let cleaned := cleanWord word
  if cleaned = "" then false
  else
    ((sha256 (key ++ [0] ++ utf8Encode "carrier" ++ [0] ++ utf8Encode cleaned)).headD 0)
      &&& 1 == 1

/-- `_carrier_copy(word, key)`:
`SHA256(key ∥ b"\x00copy\x00" ∥ cleaned)[0] mod REDUNDANCY`. -/
def carrierCopy (word : String) (key : List Nat) : Nat :=
  ((sha256 (key ++ [0] ++ utf8Encode "copy" ++ [0] ++ utf8Encode (cleanWord word))).headD 0)
    % REDUNDANCY

/-- `_split_token`: the base word, with all zero-width characters removed. -/
def tokenBase (t : String) : String :=
  String.mk (t.data.filter (fun c => !zwSet.contains c))

/-- `_split_token`: the zero-width characters of a token, in order. -/
def tokenZws (t : String) : List Char :=
  t.data.filter (fun c => zwSet.contains c)

/-- Python `-(-a // b)` for positive `b`: ceiling division. -/
def pyCeilDiv (a b : Nat) : Nat := (a + b - 1) / b

/-- The inner `for _ in range(zw_per_word)` loop of the embedder: emit up to
`count` zero-width characters starting at payload-bit cursor `bitI`,
returning the characters and the advanced cursor. -/
def zwStrFor (bits : List Nat) : Nat → Nat → List Char × Nat
  | 0, bitI => ([], bitI)
  | k + 1, bitI =>
    if bitI + 1 < PAYLOAD_BITS then
      let r := zwStrFor bits k (bitI + 2)
      (zwEnc (bits.getD bitI 0) (bits.getD (bitI + 1) 0) :: r.1, r.2)
    else if bitI < PAYLOAD_BITS then
      let r := zwStrFor bits k (bitI + 2)
      (zwEnc (bits.getD bitI 0) 0 :: r.1, r.2)
    else zwStrFor bits k bitI

/-- The `for ci in ccl` loop of one copy: append each carrier's zero-width
string to the original token (`tokens[ci] + zw_str`), threading the bit
cursor. -/
def embedCopyFold (tokens : List String) (bits : List Nat) (zwPerWord : Nat) :
    List Nat → List String × Nat → List String × Nat
  | [], st => st
  | ci :: rest, (out, bitI) =>
    let z := zwStrFor bits zwPerWord bitI
    let out' := if z.1.isEmpty then out
                else out.set ci ((tokens.getD ci "") ++ String.mk z.1)
    embedCopyFold tokens bits zwPerWord rest (out', z.2)

/-- Group carrier indices by copy assignment (`copy_carriers`); insertion
order within each copy equals text order, i.e. a filter. -/
def copyCarrierLists (tokens : List String) (key : List Nat)
    (allCarriers : List Nat) : List (List Nat) :=
  (List.range REDUNDANCY).map
    (fun r => allCarriers.filter (fun ci => carrierCopy (tokens.getD ci "") key = r))

/-- `" ".join(tokens)`. -/
def joinSpace : List String → String
  | [] => ""
  | [t] => t
  | t :: rest => t ++ " " ++ joinSpace rest

/-- `embed_text_watermark` — the watermarked text.  The returned metadata
dict (green-token statistics, copy sizes) is not modelled; no claim
mentions it.  `pyFromIso`/`pyNow` abstract the timestamp library calls as
in `buildPayload`. -/
def embedTextWatermark (pyFromIso : String → Option Int) (pyNow : Int)
    (text : String) (key : List Nat) (model_name : Option String)
    (timestamp : String) (context : Option String) : String :=
  let tokens := pySplit text
  if tokens.isEmpty then text
  else
    let payloadBits := toBits (buildPayload pyFromIso pyNow model_name timestamp key context)
    let allC := (List.range tokens.length).filter (fun i => isCarrier (tokens.getD i "") key)
    let allCarriers := if allC.isEmpty then List.range tokens.length else allC
    let outTokens := (copyCarrierLists tokens key allCarriers).foldl
      (fun out ccl =>
        if ccl.isEmpty then out
        else
          let zwPerWord := max 1 (pyCeilDiv ((PAYLOAD_BITS + 1) / 2) ccl.length)
          (embedCopyFold tokens payloadBits zwPerWord ccl (out, 0)).1)
      tokens
    joinSpace outTokens

/-- The `for raw_token in text.split()` collection loop of the verifier:
route each carrier token's zero-width bits to its copy. -/
def collectCopyBits (rawTokens : List String) (key : List Nat) : List (List Nat) :=
  rawTokens.foldl
    (fun copyBits rawToken =>
      let base := tokenBase rawToken
      let zws := tokenZws rawToken
      if isCarrier base key && !zws.isEmpty then
        let r := carrierCopy base key
        copyBits.set r
          (copyBits.getD r [] ++ zws.flatMap (fun c => [(zwDec c).1, (zwDec c).2]))
      else copyBits)
    (List.replicate REDUNDANCY [])

/-- Python `round` to an integer: round-half-to-even, on an exact `ℚ`
model of the float argument (claims never depend on float ulp effects). -/
def pyRoundInt (q : ℚ) : Int :=
  let f := ⌊q⌋
  if q - f < 1/2 then f
  else if (1 : ℚ)/2 < q - f then f + 1
  else if f.emod 2 = 0 then f else f + 1

/-- Python `round(x, 4)` on the exact `ℚ` model. -/
def pyRound4 (q : ℚ) : ℚ := (pyRoundInt (q * 10000) : ℚ) / 10000

/-- The result dict of `verify_text_watermark` (float fields over `ℚ`). -/
structure TextVerifyResult where
  detected : Bool
  confidence : ℚ
  signature_valid : Bool
  model_name : Option String
  context : Option String
  timestamp_unix : Option Nat
  wm_id : Option String
  deriving DecidableEq, Repr

/-- `verify_text_watermark`.  `zGt` abstracts the float comparison
`Z > z_threshold` and `statConf` the sigmoid `stat_conf` (both from the
MD5/Mersenne-Twister statistical layer); every settled claim is
independent of their values. -/
def verifyTextWatermark (zGt : Bool) (statConf : ℚ) (text : String)
    (key : List Nat) : TextVerifyResult :=
  let tokens := pySplit (String.mk (text.data.filter (fun c => !zwSet.contains c)))
  if tokens.isEmpty then
    ⟨false, 0, false, none, none, none, none⟩
  else
    let copyBits := collectCopyBits (pySplit text) key
    let complete := (copyBits.filter (fun c => PAYLOAD_BITS ≤ c.length)).map
      (fun c => c.take PAYLOAD_BITS)
    let parseRes :=
      if complete.isEmpty then none
      else
        let voted := (List.range PAYLOAD_BITS).map
          (fun i => if complete.length < 2 * (complete.map (fun c => c.getD i 0)).sum
                    then 1 else 0)
        parsePayload (fromBits voted) key
    let sigValid := parseRes.isSome
    let stegConf : ℚ := if sigValid then 9/10 else 0
    ⟨zGt || sigValid,
     pyRound4 (max statConf stegConf),
     sigValid,
     parseRes.bind (·.model_name),
     parseRes.bind (·.context),
     parseRes.map (·.timestamp_unix),
     parseRes.bind (fun p => (deriveWmId p.model_name (some p.timestamp_unix) key).toOption)⟩

/-! ### Audio engine (`watermarking/audio_watermark.py`)

The rFFT spectrum is modelled by the list of its magnitudes `|X[f]|` as
exact rationals; phases are dropped (QIM preserves them and no claim
depends on them).  The FFT statistical layer is float-only and enters as
abstract parameters.  NumPy's Mersenne-Twister draws are abstracted as
function parameters; theorems use only the degenerate fact
`randint(low, low+1) = low`. -/

/-- `AUD_COPIES = 3`. -/
def AUD_COPIES : Nat := 3

/-- `AUD_QIM_FRAC = 0.40`. -/
def AUD_QIM_FRAC : ℚ := 2/5

/-- Fallible list indexing: `xs[f]` on a NumPy array raises `IndexError`
out of range. -/
def pyGet {α : Type} (xs : List α) (f : Nat) : Except PyErr α :=
  if h : f < xs.length then .ok (xs.get ⟨f, h⟩) else .error .indexError

/-- `_aud_qim_band(copy_idx, n_freqs)`: the copy's frequency sub-band
`(f_lo, min(f_lo + slice, n_freqs - 1))`. -/
def audQimBand (copyIdx nFreqs : Nat) : Nat × Nat :=
  let sliceSize := max 1 (nFreqs / 6)
  let fLo := (2 * copyIdx + 1) * sliceSize
  (fLo, min (fLo + sliceSize) (nFreqs - 1))

/-- `band_size = f_hi - f_lo` (a Python `int`, possibly negative). -/
def audBandSize (copyIdx nFreqs : Nat) : Int :=
  ((audQimBand copyIdx nFreqs).2 : Int) - (audQimBand copyIdx nFreqs).1

/-- The 31-bit PRNG seed
`int(sha256(key ∥ b"aud_qim" ∥ bytes([copy_idx])).hexdigest()[:8], 16) % 2^31`. -/
def audQimSeed (key : List Nat) (copyIdx : Nat) : Nat :=
  beToNat ((sha256 (key ++ utf8Encode "aud_qim" ++ [copyIdx])).take 4) % 2147483648

/-- `_aud_qim_positions`.  `npRandint seed low high size` abstracts
`np.random.RandomState(seed).randint(low, high, size)` (the narrow-band
fallback, repeats allowed); `npUnique seed low high size` abstracts the
rejection loop drawing `size` distinct bins of `[low, high)`.  Theorems
only use the degenerate fact `randint(low, low+1, ·) = low` everywhere,
which holds for any implementation of `randint`. -/
def audQimPositions (npRandint npUnique : Nat → Nat → Nat → Nat → List Nat)
    (key : List Nat) (nFreqs copyIdx : Nat) : List Nat :=
  let band := audQimBand copyIdx nFreqs
  if audBandSize copyIdx nFreqs < (PAYLOAD_BITS : Int) then
    npRandint (audQimSeed key copyIdx) band.1 (max (band.1 + 1) band.2) PAYLOAD_BITS
  else
    npUnique (audQimSeed key copyIdx) band.1 band.2 PAYLOAD_BITS

/-- Insertion step for the rational sort used by the median. -/
def insertQ (x : ℚ) : List ℚ → List ℚ
  | [] => [x]
  | y :: ys => if x ≤ y then x :: y :: ys else y :: insertQ x ys

/-- Insertion sort over `ℚ`. -/
def sortQ : List ℚ → List ℚ
  | [] => []
  | x :: xs => insertQ x (sortQ xs)

/-- `np.median` over the exact-rational model.  On the empty list NumPy
returns NaN; the claims below never consume that value (an `IndexError`
fires first), so the model returns 0 there. -/
def npMedian (xs : List ℚ) : ℚ :=
  let s := sortQ xs
  let n := xs.length
  if n = 0 then 0
  else if n % 2 = 1 then s.getD (n / 2) 0
  else (s.getD (n / 2 - 1) 0 + s.getD (n / 2) 0) / 2

/-- `_band_qim_step`: `max(median(|X[f_lo:f_hi]|) · 0.40, 1.0)`. -/
def bandQimStep (X : List ℚ) (copyIdx nFreqs : Nat) : ℚ :=
  let band := audQimBand copyIdx nFreqs
  let mags := (X.drop band.1).take (band.2 - band.1)
  max (npMedian (mags.map (fun m => |m|)) * AUD_QIM_FRAC) 1

/-- `_extract_qim_aud`: per position, `int(round(|X[f]| / step)) % 2`,
raising `IndexError` on an out-of-range bin. -/
def extractQimAud (X : List ℚ) (positions : List Nat) (step : ℚ) :
    Except PyErr (List Nat) :=
  positions.mapM (fun f =>
    (pyGet X f).map (fun mag => ((pyRoundInt (|mag| / step)).emod 2).toNat))

/-- The position loop of `_embed_qim_aud`: force the magnitude quantizer
parity to the bit, stopping after `len(bits)` positions. -/
def embedQimAudAux (bits : List Nat) (step : ℚ) :
    List Nat → Nat → List ℚ → Except PyErr (List ℚ)
  | [], _, X => .ok X
  | f :: rest, i, X =>
    if bits.length ≤ i then .ok X
    else
      match pyGet X f with
      | .error e => .error e
      | .ok mag =>
        let q := pyRoundInt (|mag| / step)
        let b := bits.getD i 0
        let q2 := if q.emod 2 ≠ b then (if b = 1 then q + 1 else max 0 (q - 1)) else q
        embedQimAudAux bits step rest (i + 1) (X.set f ((q2 : ℚ) * step))

/-- `_embed_qim_aud` on the magnitude model. -/
def embedQimAud (X : List ℚ) (bits : List Nat) (positions : List Nat)
    (step : ℚ) : Except PyErr (List ℚ) :=
  embedQimAudAux bits step positions 0 X

/-- The QIM layer of `embed_audio_watermark`: per-copy steps are computed
from the post-statistical spectrum `X` first, then the three copies are
embedded in order. -/
def audioEmbedQim (npRandint npUnique : Nat → Nat → Nat → Nat → List Nat)
    (key : List Nat) (bits : List Nat) (X : List ℚ) : Except PyErr (List ℚ) :=
  let steps := (List.range AUD_COPIES).map (fun c => bandQimStep X c X.length)
  (List.range AUD_COPIES).foldlM
    (fun Xw c =>
      embedQimAud Xw bits (audQimPositions npRandint npUnique key X.length c)
        (steps.getD c 0))
    X

/-- The per-copy extraction loop of `verify_audio_watermark`. -/
def audioCopyBits (npRandint npUnique : Nat → Nat → Nat → Nat → List Nat)
    (key : List Nat) (X : List ℚ) : Except PyErr (List (List Nat)) :=
  (List.range AUD_COPIES).mapM (fun c =>
    extractQimAud X (audQimPositions npRandint npUnique key X.length c)
      (bandQimStep X c X.length))

/-- The result dict of `verify_audio_watermark` (float fields over `ℚ`). -/
structure AudioVerifyResult where
  detected : Bool
  confidence : ℚ
  signature_valid : Bool
  model_name : Option String
  context : Option String
  timestamp_unix : Option Nat
  wm_id : Option String
  deriving DecidableEq, Repr

/-- `verify_audio_watermark` after WAV decode, on the magnitude spectrum
model.  `statDetected` abstracts the float test `|rho| > threshold` of the
FFT statistical layer and `statConf` its confidence; the settled claims
are independent of both. -/
def verifyAudioWatermark (npRandint npUnique : Nat → Nat → Nat → Nat → List Nat)
    (statDetected : Bool) (statConf : ℚ) (key : List Nat) (X : List ℚ) :
    Except PyErr AudioVerifyResult :=
  match audioCopyBits npRandint npUnique key X with
  | .error e => .error e
  | .ok copyBits =>
    let voted := (List.range PAYLOAD_BITS).map
      (fun i => if copyBits.length < 2 * (copyBits.map (fun cb => cb.getD i 0)).sum
                then 1 else 0)
    let payload := parsePayload (fromBits voted) key
    .ok ⟨statDetected || payload.isSome,
         pyRound4 (max statConf (if payload.isSome then 9/10 else 0)),
         payload.isSome,
         payload.bind (·.model_name),
         payload.bind (·.context),
         payload.map (·.timestamp_unix),
         payload.bind (fun p => (deriveWmId p.model_name (some p.timestamp_unix) key).toOption)⟩

/-! #### Sample plumbing of `embed_audio_watermark`

The mono FFT/QIM pipeline (`rfft` → statistical layer → QIM →
`irfft` → clip → astype) is pure float signal processing; for the stereo
frame-effect claim only its integer output matters, so it enters the model
as an abstract list `monoInt`.  `samples.astype(float64).astype(dtype)` is
the identity on in-range integer samples and is modelled as such. -/

/-- WAV parameters as returned by `wave.getparams()` (the fields the
claims mention). -/
structure WavParams where
  nchannels : Nat
  sampwidth : Nat
  framerate : Nat
  nframes : Nat
  deriving DecidableEq, Repr

/-- NumPy strided read `xs[::s]`. -/
def stridedGet {α : Type} (xs : List α) (s : Nat) : List α :=
  (xs.enum.filter (fun p => p.1 % s = 0)).map (·.2)

/-- NumPy strided write `out[::s] = vs` (NumPy requires
`len(vs) = len(out[::s])`; theorems carry that as a hypothesis). -/
def stridedSet {α : Type} (xs : List α) (s : Nat) (vs : List α) (d : α) : List α :=
  xs.enum.map (fun p => if p.1 % s = 0 then vs.getD (p.1 / s) d else p.2)

/-- The output sample construction of `embed_audio_watermark`:
`out = samples.astype(dtype).copy(); out[::n_ch] = mono_int` for
multi-channel input, else `out = mono_int`. -/
def embedAudioOut (samples : List Int) (nch : Nat) (monoInt : List Int) : List Int :=
  if 1 < nch then stridedSet samples nch monoInt 0 else monoInt

/-- `_encode_wav`: `wave` writes back the given params, with the frame
count determined by the data actually written
(`len(out) · sampwidth / (nchannels · sampwidth)` frames). -/
def encodeWavParams (out : List Int) (params : WavParams) : WavParams :=
  { params with nframes := out.length / params.nchannels }

/-! ### Registry lookup and `/api/verify` aggregation
(`watermarking/registry.py`, `main.py`) -/

/-- The registry-entry fields consumed by the verify endpoint. -/
structure RegEntry where
  wm_id : Option String
  model_name : Option String
  context : Option String
  deriving DecidableEq, Repr

/-- A registry hit: an entry tagged with the `match_type` string added by
the lookup that found it. -/
structure RegMatch extends RegEntry where
  match_type : String
  deriving DecidableEq, Repr

/-- Does `hay` start with `needle`? -/
def listStarts : List Char → List Char → Bool
  | [], _ => true
  | _ :: _, [] => false
  | a :: as, b :: bs => a = b && listStarts as bs

/-- Does `hay` contain `needle` as a contiguous sublist? -/
def listHasSub (needle : List Char) : List Char → Bool
  | [] => needle.isEmpty
  | b :: bs => listStarts needle (b :: bs) || listHasSub needle bs

/-- Python `needle in haystack` on strings (substring containment). -/
def pyContainsStr (needle hay : String) : Bool :=
  listHasSub needle.data hay.data

/-- `lookup_content(data_type, content_bytes)`.  `lookupByHash` abstracts
`lookup_by_hash` over the registry file (keyed by the SHA-256 hex of the
content, computed concretely here); `pImage`/`pVideo`/`pAudio`/`pText`
abstract the four best-scoring perceptual searches (registry state plus
float similarity scores).  Each branch tags its hit with the fixed
`match_type` string of the source. -/
def lookupContent (lookupByHash : String → Option RegEntry)
    (pImage pVideo pAudio : List Nat → Option RegEntry)
    (pText : String → Option RegEntry)
    (data_type : String) (content : List Nat) : Option RegMatch :=
  match lookupByHash (bytesToHex (sha256 content)) with
  | some e => some ⟨e, "exact_hash"⟩
  | none =>
    if data_type = "image" then (pImage content).map (⟨·, "perceptual_image"⟩)
    else if data_type = "video" then (pVideo content).map (⟨·, "perceptual_video"⟩)
    else if data_type = "audio" then (pAudio content).map (⟨·, "perceptual_audio"⟩)
    else if data_type = "text" then (pText (utf8Decode content)).map (⟨·, "perceptual_text"⟩)
    else none

/-- The modality verifier's result as consumed by `verify_endpoint`
(float confidence over `ℚ`). -/
structure StatResult where
  detected : Bool
  confidence : ℚ
  signature_valid : Bool
  model_name : Option String
  context : Option String
  timestamp_unix : Option Nat
  wm_id : Option String
  source : Option String
  deriving DecidableEq, Repr

/-- The `/api/verify` response fields the claims mention.
`registry_consulted` records whether the `lookup_content` call was reached
on the modelled code path (the source guards it with
`if not watermark_detected`). -/
structure VerifyResponse where
  watermark_detected : Bool
  confidence_score : ℚ
  matched_watermark_id : Option String
  model_name : Option String
  context : Option String
  detection_source : String
  signature_valid : Bool
  tamper_detected : Bool
  registry_match : Bool
  registry_consulted : Bool
  deriving DecidableEq, Repr

/-- Python `a or b` on optional strings (`""` and `None` are falsy). -/
def pyOrOpt (a b : Option String) : Option String :=
  match a with
  | some s => if s = "" then b else some s
  | none => b

/-- The registry-fallback aggregation of `verify_endpoint` (main.py lines
272–355), for an arbitrary content lookup `lookup`. -/
def verifyEndpointCore (lookup : String → List Nat → Option RegMatch)
    (req_model_name : Option String) (data_type : String) (stat : StatResult)
    (raw : List Nat) : VerifyResponse :=
  let sigValid := stat.signature_valid
  let modelName := pyOrOpt stat.model_name req_model_name
  let consulted := !stat.detected
  let regMatch := if stat.detected then none else lookup data_type raw
  match regMatch with
  | some m =>
    let detected := true
    let sig := true
    ⟨detected,
     pyRound4 (if pyContainsStr "perceptual" m.match_type then 17/20 else 19/20),
     m.wm_id,
     pyOrOpt m.model_name modelName,
     pyOrOpt m.context stat.context,
     "registry_" ++ m.match_type,
     sig,
     detected && !sig,
     true,
     consulted⟩
  | none =>
    ⟨stat.detected,
     pyRound4 stat.confidence,
     stat.wm_id,
     modelName,
     stat.context,
     stat.source.getD "frequency_domain",
     sigValid,
     stat.detected && !sigValid,
     false,
     consulted⟩

/-! ### Video keyframe indices (`watermarking/video_watermark.py`) -/

/-- `PAYLOAD_FRAMES = 5`. -/
def PAYLOAD_FRAMES : Nat := 5

/-- Python `int()` on a rational: truncation toward zero. -/
def pyIntTrunc (q : ℚ) : Int := if 0 ≤ q then ⌊q⌋ else -⌊-q⌋

/-- `_key_frame_indices(n_frames)`:
`[int(i * max(1, n_frames / 5)) % n_frames for i in range(5)]`.
The source evaluates `i * max(1, n_frames / 5)` in float64; for `i < 5`
and `n_frames < 2^50` the float truncates to the same integer as this
exact-rational model (`i·n/5` is at distance ≥ 1/5 from any other integer
unless `5 ∣ n`, in which case the float computation is exact, while the
float error is below `i·n·2⁻⁵²`). -/
def keyFrameIndices (n : Nat) : List Int :=
  (List.range PAYLOAD_FRAMES).map
    (fun (i : Nat) =>
      (pyIntTrunc ((i : ℚ) * max 1 ((n : ℚ) / (PAYLOAD_FRAMES : ℚ)))).emod (n : Int))

/-- The spec's formula for the `i`-th keyframe index:
`round(i · n_frames / 5) mod n_frames` (Python `round`, half-to-even). -/
def specKeyFrameIndex (n i : Nat) : Int :=
  (pyRoundInt ((i : ℚ) * (n : ℚ) / (PAYLOAD_FRAMES : ℚ))).emod (n : Int)

/-- The sixteen lowercase hex digits. -/
def hexCharSet : List Char := "0123456789abcdef".data

/-- Remove all four zero-width code points from a text (the claim-C10
post-processing operation). -/
def stripZwText (s : String) : String :=
  String.mk (s.data.filter (fun c => !zwSet.contains c))

end WM

-- Known-answer check for the SHA-256 embedding (FIPS 180-4).
example : WM.bytesToHex (WM.sha256 [97, 98, 99]) =
    "ba7816bf8f01cfea414140de5dae2223b00361a396177a9cb410ff61f20015ad" := by
  rfl

example : WM.pySplit "  the quick\tbrown\n fox " = ["the", "quick", "brown", "fox"] := by
  rfl

example : WM.cleanWord "((Hello!))" = "hello" := by rfl

example : WM.utf8Decode (WM.utf8Encode "Tıp π𝄞") = "Tıp π𝄞" := by rfl

example : WM.fromBits (WM.toBits [0x57, 0x4d, 7]) = [0x57, 0x4d, 7] := by rfl

example : WM.audQimBand 2 5 = (5, 4) := by decide

example : WM.pyContainsStr "perceptual" "perceptual_image" = true := by decide

example : WM.pyContainsStr "perceptual" "exact_hash" = false := by decide

namespace WM

/-! ## Support lemmas -/

theorem shaStep_length (k w a b c d e f g h : Nat) :
    (shaStep k w a b c d e f g h).length = 8 := rfl

theorem shaRounds_length :
    ∀ (kws : List (Nat × Nat)) (st : List Nat), st.length = 8 →
      (shaRounds kws st).length = 8 := by
  intro kws
  induction kws with
  | nil => intro st h; simpa [shaRounds] using h
  | cons kw rest ih =>
    intro st h
    cases kw with
    | mk k w => exact ih _ (shaStep_length ..)

theorem shaCompress_length (h b : List Nat) (hh : h.length = 8) :
    (shaCompress h b).length = 8 := by
  simp [shaCompress, List.length_zip, shaRounds_length _ _ hh, hh]

theorem foldl_shaCompress_length (blocks : List (List Nat)) :
    ∀ h, h.length = 8 → (blocks.foldl shaCompress h).length = 8 := by
  induction blocks with
  | nil => intro h hh; simpa using hh
  | cons b rest ih => intro h hh; exact ih _ (shaCompress_length _ _ hh)

theorem sha256_length (msg : List Nat) : (sha256 msg).length = 32 := by
  unfold sha256
  have h8 := foldl_shaCompress_length
    (chunks64 (shaPad msg).length (shaPad msg)) shaInit rfl
  rw [List.length_flatten, List.map_map,
    show List.length ∘ wordBytes = fun _ => (4 : Nat) from funext fun _ => rfl,
    List.map_const', List.sum_replicate, h8]
  rfl

theorem hmacSha256_length (key msg : List Nat) :
    (hmacSha256 key msg).length = 32 := by
  simp only [hmacSha256]
  exact sha256_length _

theorem sha256_byte_lt (msg : List Nat) : ∀ b ∈ sha256 msg, b < 256 := by
  intro b hb
  unfold sha256 at hb
  simp only [List.mem_flatten, List.mem_map] at hb
  obtain ⟨l, ⟨w, _, rfl⟩, hbw⟩ := hb
  simp only [wordBytes, List.mem_cons, List.not_mem_nil, or_false] at hbw
  rcases hbw with h | h | h | h <;> subst h <;>
    exact lt_of_le_of_lt Nat.and_le_right (by norm_num)

theorem ljustZero_length (n : Nat) (bs : List Nat) (h : bs.length ≤ n) :
    (ljustZero n bs).length = n := by
  simp [ljustZero]; omega

theorem payloadPreAuth_length (F : String → Option Int) (now : Int)
    (model : Option String) (ts : String) (ctx : Option String) :
    (payloadPreAuth F now model ts ctx).length = 30 := by
  have hm : (ljustZero 16 ((utf8Encode (model.getD "")).take 16)).length = 16 :=
    ljustZero_length _ _ (List.length_take_le ..)
  have hc : (ljustZero 8 ((utf8Encode (ctx.getD "")).take 8)).length = 8 :=
    ljustZero_length _ _ (List.length_take_le ..)
  simp [payloadPreAuth, MAGIC, be32, MODEL_LEN, CTX_LEN, hm, hc]

theorem buildPayload_length (F : String → Option Int) (now : Int)
    (model : Option String) (ts : String) (key : List Nat) (ctx : Option String) :
    (buildPayload F now model ts key ctx).length = PAYLOAD_BYTES := by
  simp [buildPayload, payloadPreAuth_length, List.length_take, hmacSha256_length,
    PAYLOAD_BYTES, MODEL_LEN, CTX_LEN]

theorem buildPayload_take30 (F : String → Option Int) (now : Int)
    (model : Option String) (ts : String) (key : List Nat) (ctx : Option String) :
    (buildPayload F now model ts key ctx).take 30 = payloadPreAuth F now model ts ctx := by
  rw [buildPayload, show (30 : Nat) = (payloadPreAuth F now model ts ctx).length from
    (payloadPreAuth_length ..).symm, List.take_left]

theorem buildPayload_drop30 (F : String → Option Int) (now : Int)
    (model : Option String) (ts : String) (key : List Nat) (ctx : Option String) :
    (buildPayload F now model ts key ctx).drop 30 =
      (hmacSha256 key (payloadPreAuth F now model ts ctx)).take 4 := by
  rw [buildPayload, show (30 : Nat) = (payloadPreAuth F now model ts ctx).length from
    (payloadPreAuth_length ..).symm, List.drop_left]

theorem and255 (x : Nat) : x &&& 255 = x % 256 := by
  simpa using Nat.and_pow_two_sub_one_eq_mod x 8

theorem beToNat_be32 (n : Nat) (h : n < 4294967296) : beToNat (be32 n) = n := by
  simp only [be32, beToNat, List.foldl_cons, List.foldl_nil, and255,
    Nat.shiftRight_eq_div_pow]
  norm_num
  omega

/-- The single iff governing `parse_payload` failure. -/
theorem parsePayload_eq_none_iff (raw key : List Nat) :
    parsePayload raw key = none ↔
      raw.length < PAYLOAD_BYTES ∨ ¬ raw.take 2 = MAGIC ∨
      ¬ (raw.drop 30).take 4 = (hmacSha256 key (raw.take 30)).take 4 := by
  have ht2 : (raw.take PAYLOAD_BYTES).take 2 = raw.take 2 := by
    simp [List.take_take, PAYLOAD_BYTES, MODEL_LEN, CTX_LEN]
  have ht30 : (raw.take PAYLOAD_BYTES).take (2 + 4 + MODEL_LEN + CTX_LEN) = raw.take 30 := by
    simp [List.take_take, PAYLOAD_BYTES, MODEL_LEN, CTX_LEN]
  have htag : ((raw.take PAYLOAD_BYTES).drop (2 + 4 + MODEL_LEN + CTX_LEN)).take 4 =
      (raw.drop 30).take 4 := by
    rw [List.drop_take, List.take_take]
    norm_num [PAYLOAD_BYTES, MODEL_LEN, CTX_LEN]
  simp only [parsePayload]
  split_ifs with h1 h2 h3
  · simp [h1]
  · rw [ht2] at h2
    simp [h1, h2]
  · rw [ht30, htag] at h3
    simp [h1, h3]
  · rw [ht2] at h2
    rw [ht30, htag] at h3
    push_neg at h2 h3
    simp [h1, h2, h3]

/-- A successful `parse_payload` always carries `valid = True`. -/
theorem parsePayload_valid (raw key : List Nat) :
    (parsePayload raw key).all (fun d => d.valid) = true := by
  simp only [parsePayload]
  split_ifs <;> rfl

end WM

namespace WM

/-! ## Claim C4 — parse failure conditions -/

/-- C4: `parse_payload(raw, K)` returns None iff the input is shorter than
34 bytes, the magic bytes mismatch, or the 4-byte auth tag differs from the
first 4 bytes of HMAC-SHA-256(K, raw[0:30]); otherwise the returned dict
has `valid = True`. -/
theorem claim_C4_parse_none_iff (raw key : List Nat) :
    (parsePayload raw key = none ↔
      raw.length < PAYLOAD_BYTES ∨ ¬ raw.take 2 = MAGIC ∨
      ¬ (raw.drop 30).take 4 = (hmacSha256 key (raw.take 30)).take 4) ∧
    (parsePayload raw key).all (fun d => d.valid) = true :=
  ⟨parsePayload_eq_none_iff raw key, parsePayload_valid raw key⟩

/-! ## Claim C3 — parsing under a different key -/

/-- C3 (amended): parsing a built payload under a second key `key'` returns
None exactly when the 4-byte HMAC tag under `key'` differs from the tag
under the building key; byte-distinct keys with equal HMAC tags (e.g.
zero-padding-equivalent keys) are accepted. -/
theorem claim_C3_amended (F : String → Option Int) (now : Int)
    (model : Option String) (ts : String) (key key' : List Nat)
    (ctx : Option String) :
    parsePayload (buildPayload F now model ts key ctx) key' = none ↔
      ¬ (hmacSha256 key' (payloadPreAuth F now model ts ctx)).take 4 =
        (hmacSha256 key (payloadPreAuth F now model ts ctx)).take 4 := by
  rw [parsePayload_eq_none_iff]
  have hlen : ¬ (buildPayload F now model ts key ctx).length < PAYLOAD_BYTES := by
    rw [buildPayload_length]
    exact lt_irrefl _
  have hmagic : (buildPayload F now model ts key ctx).take 2 = MAGIC := by
    have h2 : ((buildPayload F now model ts key ctx).take 30).take 2 =
        (buildPayload F now model ts key ctx).take 2 := by
      rw [List.take_take]
      norm_num
    rw [← h2, buildPayload_take30]
    rfl
  have htag : ((buildPayload F now model ts key ctx).drop 30).take 4 =
      (hmacSha256 key (payloadPreAuth F now model ts ctx)).take 4 := by
    rw [buildPayload_drop30, List.take_take]
    norm_num
  rw [buildPayload_take30, htag]
  simp [hlen, hmagic, eq_comm]

/-! ## Claim C6 — derive_wm_id -/

/-- Membership of hex digits. -/
theorem hexDigit_mem (n : Nat) (h : n < 16) : hexCharSet.contains (hexDigit n) = true := by
  revert h
  revert n
  decide

theorem bytesToHex_data (bs : List Nat) :
    (bytesToHex bs).data = bs.flatMap (fun b => [hexDigit (b / 16), hexDigit (b % 16)]) := rfl

theorem bytesToHex_length (bs : List Nat) : (bytesToHex bs).length = 2 * bs.length := by
  show (bytesToHex bs).data.length = 2 * bs.length
  rw [bytesToHex_data, List.length_flatMap,
    show (List.length ∘ fun b : Nat => [hexDigit (b / 16), hexDigit (b % 16)]) =
      fun _ => (2 : Nat) from funext fun _ => rfl,
    List.map_const', List.sum_replicate]
  simp [Nat.mul_comm]

theorem bytesToHex_all_hex (bs : List Nat) (h : ∀ b ∈ bs, b < 256) :
    (bytesToHex bs).data.all (fun c => hexCharSet.contains c) = true := by
  rw [bytesToHex_data, List.all_eq_true]
  intro c hc
  rw [List.mem_flatMap] at hc
  obtain ⟨b, hb, hcb⟩ := hc
  have hlt := h b hb
  simp only [List.mem_cons, List.not_mem_nil, or_false] at hcb
  rcases hcb with rfl | rfl
  · exact hexDigit_mem _ (Nat.div_lt_of_lt_mul (by omega))
  · exact hexDigit_mem _ (Nat.mod_lt _ (by norm_num))

/-- C6 (amended): `derive_wm_id` is a pure function of its arguments; with
an integer timestamp it returns a 64-character lowercase-hex string, and
with `ts_unix = None` the Python code raises `TypeError`
(`None & 0xFFFF_FFFF`) instead of returning `None`. -/
theorem claim_C6_amended (model : Option String) (key : List Nat) (t : Int) :
    deriveWmId model none key = .error .typeError ∧
    ∃ s, deriveWmId model (some t) key = .ok s ∧ s.length = 64 ∧
      s.data.all (fun c => hexCharSet.contains c) = true := by
  refine ⟨rfl, bytesToHex (sha256 (key ++ be32 ((t.emod 4294967296)).toNat ++
    ljustZero MODEL_LEN ((utf8Encode (model.getD "")).take MODEL_LEN))), rfl, ?_, ?_⟩
  · rw [bytesToHex_length, sha256_length]
  · exact bytesToHex_all_hex _ (sha256_byte_lt _)

/-- C6 counterexample: at concrete inputs the returned hex string has 64
characters, not 32 as claimed. -/
theorem claim_C6_counterexample :
    ((deriveWmId none (some 0) [107]).toOption.map String.length) = some 64 ∧
      (64 : Nat) ≠ 32 := by
  exact ⟨by rfl, by decide⟩

end WM

namespace WM

/-! ## Claim C8 — video keyframe indices -/

theorem pyIntTrunc_natCast (i : Nat) : pyIntTrunc (i : ℚ) = i := by
  rw [pyIntTrunc, if_pos (by positivity)]
  exact_mod_cast Int.floor_natCast i

/-- C8 (amended): the `i`-th keyframe index is
`int(i · max(1, n_frames/5)) mod n_frames` — truncating division, not
`round` — which in closed form is `(i · max(5, n_frames)) / 5 mod n_frames`
with integer division. -/
theorem claim_C8_amended (n : Nat) (hn : 0 < n) :
    keyFrameIndices n = (List.range PAYLOAD_FRAMES).map
      (fun i => ((i * max 5 n / 5 % n : Nat) : Int)) := by
  unfold keyFrameIndices
  apply List.map_congr_left
  intro i _
  by_cases h5 : 5 ≤ n
  · have hmax : max 1 ((n : ℚ) / (PAYLOAD_FRAMES : ℚ)) = (n : ℚ) / (PAYLOAD_FRAMES : ℚ) := by
      rw [max_eq_right]
      rw [le_div_iff₀ (by norm_num [PAYLOAD_FRAMES])]
      norm_num [PAYLOAD_FRAMES]
      exact_mod_cast h5
    have hcast : (i : ℚ) * ((n : ℚ) / (PAYLOAD_FRAMES : ℚ)) =
        ((i * n : Nat) : ℚ) / ((5 : Nat) : ℚ) := by
      push_cast [PAYLOAD_FRAMES]
      ring
    rw [hmax, pyIntTrunc, if_pos (by positivity), hcast,
      Rat.floor_natCast_div_natCast]
    rw [max_eq_right h5]
    have : ((i * n / 5 : Nat) : Int).emod (n : Int) = ((i * n / 5 % n : Nat) : Int) := by
      push_cast
      rfl
    rw [← this]
    norm_cast
  · have hlt : (n : ℚ) / (PAYLOAD_FRAMES : ℚ) ≤ 1 := by
      rw [div_le_one (by norm_num [PAYLOAD_FRAMES])]
      norm_num [PAYLOAD_FRAMES]
      exact_mod_cast Nat.le_of_lt (by omega)
    have hmax : max 1 ((n : ℚ) / (PAYLOAD_FRAMES : ℚ)) = 1 := max_eq_left hlt
    rw [hmax, mul_one, pyIntTrunc_natCast]
    rw [max_eq_left (by omega), Nat.mul_div_cancel _ (by norm_num)]
    push_cast
    rfl

/-- Witness for C8 (amended) at `n_frames = 9`. -/
theorem claim_C8_witness :
    0 < 9 ∧ keyFrameIndices 9 = [0, 1, 3, 5, 7] :=
  ⟨by decide, (claim_C8_amended 9 (by decide)).trans (by decide)⟩

/-- C8 counterexample: at `n_frames = 9`, `i = 1` the code yields index 1
(`int(1.8)`), while the claimed formula `round(1·9/5) mod 9` yields 2. -/
theorem claim_C8_counterexample :
    (keyFrameIndices 9).getD 1 0 = 1 ∧ specKeyFrameIndex 9 1 = 2 := by
  have hmax : max (1 : ℚ) ((9 : ℚ) / 5) = (9 : ℚ) / 5 := max_eq_right (by norm_num)
  have hfl : (⌊(9 : ℚ) / 5⌋ : Int) = 1 := by
    rw [show ((9 : ℚ) / 5) = ((9 : Nat) : ℚ) / ((5 : Nat) : ℚ) by norm_num,
      Rat.floor_natCast_div_natCast]
    decide
  constructor
  · have key : (pyIntTrunc ((1 : ℚ) * max 1 ((9 : ℚ) / 5))).emod (9 : Int) = 1 := by
      rw [hmax, one_mul, pyIntTrunc, if_pos (by positivity), hfl]
      decide
    unfold keyFrameIndices PAYLOAD_FRAMES
    rw [show List.range 5 = [0, 1, 2, 3, 4] from rfl]
    simp only [List.map_cons, Nat.cast_ofNat, Nat.cast_one, Nat.cast_zero]
    rw [key]
    rfl
  · unfold specKeyFrameIndex PAYLOAD_FRAMES
    simp only [Nat.cast_ofNat, Nat.cast_one, one_mul]
    rw [pyRoundInt]
    rw [show ((9 : ℚ) / 5) = ((9 : Nat) : ℚ) / ((5 : Nat) : ℚ) by norm_num,
      Rat.floor_natCast_div_natCast]
    norm_num

end WM

namespace WM

/-! ## Claim C9 — stereo embed touches only channel 0 -/

theorem stridedSet_length {α : Type} (xs : List α) (s : Nat) (vs : List α) (d : α) :
    (stridedSet xs s vs d).length = xs.length := by
  simp [stridedSet]

theorem stridedSet_getD_offstride {α : Type} (xs : List α) (s : Nat) (vs : List α)
    (d d0 : α) (i : Nat) (hi : i < xs.length) (hm : i % s ≠ 0) :
    (stridedSet xs s vs d).getD i d0 = xs.getD i d0 := by
  have hx : xs[i]? = some xs[i] := List.getElem?_eq_getElem hi
  simp [stridedSet, List.getD, List.getElem?_map, List.getElem?_enum, hx, hm]

/-- C9: for multi-channel WAV input, `embed_audio_watermark` leaves every
sample outside channel 0 unchanged and writes back identical WAV
parameters (channel count, sample width, frame rate, frame count).
`monoInt` abstracts the float FFT/QIM pipeline output for channel 0. -/
theorem claim_C9 (samples : List Int) (params : WavParams) (monoInt : List Int)
    (hch : 1 < params.nchannels)
    (hlen : samples.length = params.nframes * params.nchannels) :
    (∀ i, i < samples.length → i % params.nchannels ≠ 0 →
      (embedAudioOut samples params.nchannels monoInt).getD i 0 = samples.getD i 0) ∧
    encodeWavParams (embedAudioOut samples params.nchannels monoInt) params = params := by
  constructor
  · intro i hi hm
    rw [embedAudioOut, if_pos hch]
    exact stridedSet_getD_offstride samples params.nchannels monoInt 0 0 i hi hm
  · have hout : (embedAudioOut samples params.nchannels monoInt).length = samples.length := by
      rw [embedAudioOut, if_pos hch]
      exact stridedSet_length ..
    cases params with
    | mk nch sw fr nf =>
      simp only [encodeWavParams, hout, WavParams.mk.injEq, and_true, true_and]
      simp only at hlen hch
      rw [hlen, Nat.mul_div_cancel _ (by omega)]

/-- Witness for C9 on a concrete 2-channel, 2-frame input. -/
theorem claim_C9_witness :
    (embedAudioOut [5, 6, 7, 8] (WavParams.mk 2 2 8000 2).nchannels [1, 2]).getD 1 0 =
      ([5, 6, 7, 8] : List Int).getD 1 0 ∧
    encodeWavParams (embedAudioOut [5, 6, 7, 8] (WavParams.mk 2 2 8000 2).nchannels [1, 2])
      (WavParams.mk 2 2 8000 2) = WavParams.mk 2 2 8000 2 :=
  ⟨(claim_C9 [5, 6, 7, 8] (WavParams.mk 2 2 8000 2) [1, 2] (by decide) (by decide)).1
      1 (by decide) (by decide),
   (claim_C9 [5, 6, 7, 8] (WavParams.mk 2 2 8000 2) [1, 2] (by decide) (by decide)).2⟩

/-! ## Claim C5 — registry gating, forced detection, confidence levels -/

theorem pyRound4_C085 : pyRound4 (17/20) = 17/20 := by
  norm_num [pyRound4, pyRoundInt]

theorem pyRound4_C095 : pyRound4 (19/20) = 19/20 := by
  norm_num [pyRound4, pyRoundInt]

/-- Every hit of `lookup_content` carries one of the five fixed
`match_type` tags. -/
theorem lookupContent_match_type (LH : String → Option RegEntry)
    (pI pV pA : List Nat → Option RegEntry) (pT : String → Option RegEntry)
    (dt : String) (content : List Nat) (m : RegMatch)
    (h : lookupContent LH pI pV pA pT dt content = some m) :
    m.match_type = "exact_hash" ∨ m.match_type = "perceptual_image" ∨
    m.match_type = "perceptual_video" ∨ m.match_type = "perceptual_audio" ∨
    m.match_type = "perceptual_text" := by
  unfold lookupContent at h
  cases hlh : LH (bytesToHex (sha256 content)) with
  | some e =>
    rw [hlh] at h
    simp only [Option.some.injEq] at h
    left
    rw [← h]
  | none =>
    rw [hlh] at h
    dsimp only at h
    split_ifs at h with h1 h2 h3 h4
    · obtain ⟨e, _, rfl⟩ := Option.map_eq_some'.mp h
      right; left; rfl
    · obtain ⟨e, _, rfl⟩ := Option.map_eq_some'.mp h
      right; right; left; rfl
    · obtain ⟨e, _, rfl⟩ := Option.map_eq_some'.mp h
      right; right; right; left; rfl
    · obtain ⟨e, _, rfl⟩ := Option.map_eq_some'.mp h
      right; right; right; right; rfl

/-- C5: the registry is consulted exactly when frequency-domain detection
failed, and a registry hit forces `watermark_detected = true`,
`signature_valid = true`, with confidence 0.95 on an exact content-hash
match and 0.85 on a perceptual match. -/
theorem claim_C5 (LH : String → Option RegEntry) (pI pV pA : List Nat → Option RegEntry)
    (pT : String → Option RegEntry) (req : Option String) (dt : String)
    (stat : StatResult) (raw : List Nat) :
    (verifyEndpointCore (lookupContent LH pI pV pA pT) req dt stat raw).registry_consulted
      = !stat.detected ∧
    (∀ m, stat.detected = false →
      lookupContent LH pI pV pA pT dt raw = some m →
      (verifyEndpointCore (lookupContent LH pI pV pA pT) req dt stat raw).watermark_detected
          = true ∧
      (verifyEndpointCore (lookupContent LH pI pV pA pT) req dt stat raw).signature_valid
          = true ∧
      (verifyEndpointCore (lookupContent LH pI pV pA pT) req dt stat raw).confidence_score
          = (if m.match_type = "exact_hash" then 19/20 else 17/20) ∧
      (m.match_type = "exact_hash" ∨ pyContainsStr "perceptual" m.match_type = true)) := by
  constructor
  · unfold verifyEndpointCore
    cases h : (if stat.detected then none else lookupContent LH pI pV pA pT dt raw) <;>
      simp [h]
  · intro m hdet hm
    have hreg : (if stat.detected then none else lookupContent LH pI pV pA pT dt raw)
        = some m := by
      rw [hdet, if_neg (by simp), hm]
    have htag := lookupContent_match_type LH pI pV pA pT dt raw m hm
    unfold verifyEndpointCore
    rw [hreg]
    dsimp only
    refine ⟨rfl, rfl, ?_, ?_⟩
    · rcases htag with ht | ht | ht | ht | ht
      · rw [ht, show pyContainsStr "perceptual" "exact_hash" = false from rfl]
        simp only [Bool.false_eq_true, if_false, String.reduceEq, reduceIte]
        exact pyRound4_C095
      · rw [ht, show pyContainsStr "perceptual" "perceptual_image" = true from rfl]
        simp only [String.reduceEq, reduceIte]
        exact pyRound4_C085
      · rw [ht, show pyContainsStr "perceptual" "perceptual_video" = true from rfl]
        simp only [String.reduceEq, reduceIte]
        exact pyRound4_C085
      · rw [ht, show pyContainsStr "perceptual" "perceptual_audio" = true from rfl]
        simp only [String.reduceEq, reduceIte]
        exact pyRound4_C085
      · rw [ht, show pyContainsStr "perceptual" "perceptual_text" = true from rfl]
        simp only [String.reduceEq, reduceIte]
        exact pyRound4_C085
    · rcases htag with ht | ht | ht | ht | ht <;> rw [ht]
      · left; rfl
      all_goals exact Or.inr rfl

end WM

namespace WM

/-- Witness for C5: a concrete exact-hash registry hit with detection off. -/
theorem claim_C5_witness :
    (verifyEndpointCore
        (lookupContent (fun _ => some ⟨some "w", some "m", some "medical"⟩)
          (fun _ => none) (fun _ => none) (fun _ => none) (fun _ => none))
        none "image" ⟨false, 0, false, none, none, none, none, none⟩
        []).watermark_detected = true ∧
    (verifyEndpointCore
        (lookupContent (fun _ => some ⟨some "w", some "m", some "medical"⟩)
          (fun _ => none) (fun _ => none) (fun _ => none) (fun _ => none))
        none "image" ⟨false, 0, false, none, none, none, none, none⟩
        []).confidence_score = 19/20 := by
  have h := claim_C5 (fun _ => some ⟨some "w", some "m", some "medical"⟩)
    (fun _ => none) (fun _ => none) (fun _ => none) (fun _ => none)
    none "image" ⟨false, 0, false, none, none, none, none, none⟩ []
  have h3 := h.2 ⟨⟨some "w", some "m", some "medical"⟩, "exact_hash"⟩ rfl rfl
  exact ⟨h3.1, by simpa using h3.2.2.1⟩

end WM

namespace WM

/-! ## UTF-8 round-trip (for claim C1) -/

theorem utf8Char_length_pos (c : Char) : 0 < (utf8Char c).length := by
  rw [utf8Char]
  split_ifs <;> simp

/-- One decode step on a cons cell. -/
theorem utf8DecodeAux_cons (fuel : Nat) (b : Nat) (bs : List Nat) :
    utf8DecodeAux (fuel + 1) (b :: bs) =
      (utf8Step b bs).1 :: utf8DecodeAux fuel (utf8Step b bs).2 := rfl

/-- Decoding one encoded character from the head of a byte stream. -/
theorem utf8DecodeAux_enc (c : Char) (bs : List Nat) (fuel : Nat) :
    utf8DecodeAux (fuel + 1) (utf8Char c ++ bs) = c :: utf8DecodeAux fuel bs := by
  have hval : Nat.isValidChar c.toNat := c.valid
  have hofn : Char.ofNat c.toNat = c := Char.ofNat_toNat c
  have hvr : c.toNat < 55296 ∨ (57343 < c.toNat ∧ c.toNat < 1114112) := hval
  by_cases h1 : c.toNat < 0x80
  · have henc : utf8Char c = [c.toNat] := by
      simp only [utf8Char]
      rw [if_pos h1]
    rw [henc, List.cons_append, List.nil_append, utf8DecodeAux_cons]
    have hstep : utf8Step c.toNat bs = (c, bs) := by
      simp only [utf8Step]
      rw [if_pos h1, hofn]
    rw [hstep]
  · by_cases h2 : c.toNat < 0x800
    · have henc : utf8Char c = [0xC0 + c.toNat / 64, 0x80 + c.toNat % 64] := by
        simp only [utf8Char]
        rw [if_neg h1, if_pos h2]
      have hstep : utf8Step (0xC0 + c.toNat / 64) ((0x80 + c.toNat % 64) :: bs)
          = (c, bs) := by
        simp only [utf8Step]
        rw [if_neg (by omega), if_pos (show ((0xC2 : Nat) ≤ 0xC0 + c.toNat / 64 &&
          0xC0 + c.toNat / 64 ≤ 0xDF) = true by
            simp only [Bool.and_eq_true, decide_eq_true_eq]
            omega)]
        rw [if_pos (show isCont (0x80 + c.toNat % 64) = true by
          simp only [isCont, Bool.and_eq_true, decide_eq_true_eq]
          omega)]
        rw [show (0xC0 + c.toNat / 64 - 0xC0) * 64 + (0x80 + c.toNat % 64 - 0x80)
          = c.toNat by omega, hofn]
      rw [henc, List.cons_append, List.cons_append, List.nil_append,
        utf8DecodeAux_cons, hstep]
    · by_cases h3 : c.toNat < 0x10000
      · have henc : utf8Char c =
            [0xE0 + c.toNat / 4096, 0x80 + c.toNat / 64 % 64, 0x80 + c.toNat % 64] := by
          simp only [utf8Char]
          rw [if_neg h1, if_neg h2, if_pos h3]
        have hstep : utf8Step (0xE0 + c.toNat / 4096)
            ((0x80 + c.toNat / 64 % 64) :: (0x80 + c.toNat % 64) :: bs) = (c, bs) := by
          simp only [utf8Step]
          rw [if_neg (by omega),
            if_neg (show ¬ ((0xC2 : Nat) ≤ 0xE0 + c.toNat / 4096 &&
              0xE0 + c.toNat / 4096 ≤ 0xDF) = true by
                simp only [Bool.and_eq_true, decide_eq_true_eq]; omega),
            if_pos (show ((0xE0 : Nat) ≤ 0xE0 + c.toNat / 4096 &&
              0xE0 + c.toNat / 4096 ≤ 0xEF) = true by
                simp only [Bool.and_eq_true, decide_eq_true_eq]; omega)]
          rw [if_pos ?hcond]
          case hcond =>
            by_cases he0 : (0xE0 : Nat) + c.toNat / 4096 = 0xE0
            · rw [if_pos he0]
              simp only [isCont, Bool.and_eq_true, decide_eq_true_eq]
              refine ⟨⟨?_, ?_⟩, ?_, ?_⟩ <;> omega
            · by_cases hed : (0xE0 : Nat) + c.toNat / 4096 = 0xED
              · rw [if_neg he0, if_pos hed]
                simp only [isCont, Bool.and_eq_true, decide_eq_true_eq]
                refine ⟨⟨?_, ?_⟩, ?_, ?_⟩ <;> omega
              · rw [if_neg he0, if_neg hed]
                simp only [isCont, Bool.and_eq_true, decide_eq_true_eq]
                refine ⟨⟨?_, ?_⟩, ?_, ?_⟩ <;> omega
          rw [show (0xE0 + c.toNat / 4096 - 0xE0) * 4096 +
            (0x80 + c.toNat / 64 % 64 - 0x80) * 64 +
            (0x80 + c.toNat % 64 - 0x80) = c.toNat by omega, hofn]
        rw [henc, List.cons_append, List.cons_append, List.cons_append,
          List.nil_append, utf8DecodeAux_cons, hstep]
      · have henc : utf8Char c =
            [0xF0 + c.toNat / 262144, 0x80 + c.toNat / 4096 % 64,
             0x80 + c.toNat / 64 % 64, 0x80 + c.toNat % 64] := by
          simp only [utf8Char]
          rw [if_neg h1, if_neg h2, if_neg h3]
        have hstep : utf8Step (0xF0 + c.toNat / 262144)
            ((0x80 + c.toNat / 4096 % 64) :: (0x80 + c.toNat / 64 % 64) ::
              (0x80 + c.toNat % 64) :: bs) = (c, bs) := by
          simp only [utf8Step]
          rw [if_neg (by omega),
            if_neg (show ¬ ((0xC2 : Nat) ≤ 0xF0 + c.toNat / 262144 &&
              0xF0 + c.toNat / 262144 ≤ 0xDF) = true by
                simp only [Bool.and_eq_true, decide_eq_true_eq]; omega),
            if_neg (show ¬ ((0xE0 : Nat) ≤ 0xF0 + c.toNat / 262144 &&
              0xF0 + c.toNat / 262144 ≤ 0xEF) = true by
                simp only [Bool.and_eq_true, decide_eq_true_eq]; omega),
            if_pos (show ((0xF0 : Nat) ≤ 0xF0 + c.toNat / 262144 &&
              0xF0 + c.toNat / 262144 ≤ 0xF4) = true by
                simp only [Bool.and_eq_true, decide_eq_true_eq]; omega)]
          rw [if_pos ?hcond4]
          case hcond4 =>
            by_cases hf0 : (0xF0 : Nat) + c.toNat / 262144 = 0xF0
            · rw [if_pos hf0]
              simp only [isCont, Bool.and_eq_true, decide_eq_true_eq]
              refine ⟨⟨⟨?_, ?_⟩, ?_, ?_⟩, ?_, ?_⟩ <;> omega
            · by_cases hf4 : (0xF0 : Nat) + c.toNat / 262144 = 0xF4
              · rw [if_neg hf0, if_pos hf4]
                simp only [isCont, Bool.and_eq_true, decide_eq_true_eq]
                refine ⟨⟨⟨?_, ?_⟩, ?_, ?_⟩, ?_, ?_⟩ <;> omega
              · rw [if_neg hf0, if_neg hf4]
                simp only [isCont, Bool.and_eq_true, decide_eq_true_eq]
                refine ⟨⟨⟨?_, ?_⟩, ?_, ?_⟩, ?_, ?_⟩ <;> omega
          rw [show (0xF0 + c.toNat / 262144 - 0xF0) * 262144 +
            (0x80 + c.toNat / 4096 % 64 - 0x80) * 4096 +
            (0x80 + c.toNat / 64 % 64 - 0x80) * 64 +
            (0x80 + c.toNat % 64 - 0x80) = c.toNat by omega, hofn]
        rw [henc, List.cons_append, List.cons_append, List.cons_append,
          List.cons_append, List.nil_append, utf8DecodeAux_cons, hstep]

end WM

namespace WM

theorem utf8DecodeAux_encList :
    ∀ (cs : List Char) (fuel : Nat), (cs.flatMap utf8Char).length ≤ fuel →
      utf8DecodeAux fuel (cs.flatMap utf8Char) = cs := by
  intro cs
  induction cs with
  | nil => intro fuel h; cases fuel <;> rfl
  | cons c rest ih =>
    intro fuel h
    rw [List.flatMap_cons] at h ⊢
    have hpos := utf8Char_length_pos c
    rw [List.length_append] at h
    obtain ⟨f, rfl⟩ : ∃ f, fuel = f + 1 := ⟨fuel - 1, by omega⟩
    rw [utf8DecodeAux_enc]
    rw [ih f (by omega)]

/-- `decode("utf-8", "replace") ∘ encode("utf-8")` is the identity. -/
theorem utf8Decode_encode (s : String) : utf8Decode (utf8Encode s) = s := by
  show String.mk (utf8DecodeAux (utf8Encode s).length (utf8Encode s)) = s
  rw [utf8Encode, utf8DecodeAux_encList s.data _ le_rfl]

theorem rstripZero_append_replicate (xs : List Nat) (k : Nat) :
    rstripZero (xs ++ List.replicate k 0) = rstripZero xs := by
  unfold rstripZero
  rw [List.reverse_append, List.reverse_replicate]
  congr 1
  induction k with
  | zero => simp
  | succ n ih => simp [List.replicate_succ, List.dropWhile_cons, ih]

theorem rstripZero_of_getLast (xs : List Nat) (h : xs.getLast? ≠ some 0) :
    rstripZero xs = xs := by
  unfold rstripZero
  rcases hr : xs.reverse with _ | ⟨a, t⟩
  · have hx : xs = [] := by simpa using congrArg List.reverse hr
    simp [hx]
  · have ha : xs.getLast? = some a := by rw [← List.head?_reverse, hr]; rfl
    have hane : ¬ (a = 0) := fun hc => h (by rw [ha, hc])
    rw [List.dropWhile_cons, if_neg (by simpa using hane), ← hr, List.reverse_reverse]

theorem buildPayload_assoc (F : String → Option Int) (now : Int)
    (model : Option String) (ts : String) (key : List Nat) (ctx : Option String) :
    buildPayload F now model ts key ctx =
      (MAGIC ++ be32 (tsU32 F now ts)) ++
        (ljustZero MODEL_LEN ((utf8Encode (model.getD "")).take MODEL_LEN) ++
          (ljustZero CTX_LEN ((utf8Encode (ctx.getD "")).take CTX_LEN) ++
            (hmacSha256 key (payloadPreAuth F now model ts ctx)).take 4)) := by
  simp [buildPayload, payloadPreAuth, List.append_assoc]

/-- C1 (amended): the payload round-trip recovers the inputs exactly when
the model name and context have nonempty UTF-8 encodings that fit their
16- and 8-byte fields without a trailing NUL byte and the timestamp string
parses; the recovered timestamp is the parsed value reduced mod 2³². -/
theorem claim_C1_amended (F : String → Option Int) (now : Int)
    (model ts ctxs : String) (key : List Nat) (v : Int)
    (hts : F ts = some v)
    (hm1 : utf8Encode model ≠ [])
    (hm2 : (utf8Encode model).length ≤ MODEL_LEN)
    (hm3 : (utf8Encode model).getLast? ≠ some 0)
    (hc1 : utf8Encode ctxs ≠ [])
    (hc2 : (utf8Encode ctxs).length ≤ CTX_LEN)
    (hc3 : (utf8Encode ctxs).getLast? ≠ some 0) :
    parsePayload (buildPayload F now (some model) ts key (some ctxs)) key =
      some ⟨some model, (v.emod 4294967296).toNat, some ctxs, true⟩ := by
  have htsn : tsU32 F now ts = (v.emod 4294967296).toNat := by
    simp [tsU32, hts]
  have htlt : (v.emod 4294967296).toNat < 4294967296 := by
    have h1 : v.emod 4294967296 < 4294967296 := Int.emod_lt_of_pos v (by norm_num)
    omega
  have hmtake : (utf8Encode model).take MODEL_LEN = utf8Encode model :=
    List.take_of_length_le hm2
  have hctake : (utf8Encode ctxs).take CTX_LEN = utf8Encode ctxs :=
    List.take_of_length_le hc2
  have hmB : ljustZero MODEL_LEN ((utf8Encode ((some model).getD "")).take MODEL_LEN) =
      utf8Encode model ++ List.replicate (MODEL_LEN - (utf8Encode model).length) 0 := by
    simp [ljustZero, hmtake]
  have hcB : ljustZero CTX_LEN ((utf8Encode ((some ctxs).getD "")).take CTX_LEN) =
      utf8Encode ctxs ++ List.replicate (CTX_LEN - (utf8Encode ctxs).length) 0 := by
    simp [ljustZero, hctake]
  have hmBlen : (ljustZero MODEL_LEN ((utf8Encode ((some model).getD "")).take MODEL_LEN)).length
      = MODEL_LEN := ljustZero_length _ _ (List.length_take_le ..)
  have hcBlen : (ljustZero CTX_LEN ((utf8Encode ((some ctxs).getD "")).take CTX_LEN)).length
      = CTX_LEN := ljustZero_length _ _ (List.length_take_le ..)
  set raw := buildPayload F now (some model) ts key (some ctxs) with hraw
  have hlen : raw.length = PAYLOAD_BYTES := buildPayload_length ..
  have hlen34 : raw.length = 34 := by
    rw [hlen]; rfl
  have hpl : raw.take PAYLOAD_BYTES = raw := List.take_of_length_le (le_of_eq hlen)
  -- slice equations
  have h6 : ((MAGIC ++ be32 (tsU32 F now ts)) : List Nat).length = 6 := by
    simp [MAGIC, be32]
  have hdrop2 : (raw.drop 2).take 4 = be32 (tsU32 F now ts) := by
    rw [hraw, buildPayload_assoc, List.append_assoc,
      List.drop_left' (show (MAGIC : List Nat).length = 2 from rfl),
      List.take_left' (show (be32 (tsU32 F now ts)).length = 4 from rfl)]
  have hdrop6 : (raw.drop 6).take MODEL_LEN =
      ljustZero MODEL_LEN ((utf8Encode ((some model).getD "")).take MODEL_LEN) := by
    rw [hraw, buildPayload_assoc, List.drop_left' h6, List.take_left' hmBlen]
  have hdrop22 : (raw.drop (6 + MODEL_LEN)).take CTX_LEN =
      ljustZero CTX_LEN ((utf8Encode ((some ctxs).getD "")).take CTX_LEN) := by
    rw [hraw, buildPayload_assoc, ← List.append_assoc,
      List.drop_left' (by rw [List.length_append, h6, hmBlen]),
      List.take_left' hcBlen]
  have htag : (raw.drop (2 + 4 + MODEL_LEN + CTX_LEN)).take 4 =
      (hmacSha256 key (payloadPreAuth F now (some model) ts (some ctxs))).take 4 := by
    rw [hraw, show (2 + 4 + MODEL_LEN + CTX_LEN : Nat) = 30 from rfl,
      buildPayload_drop30, List.take_take]
    norm_num
  have htake30 : raw.take (2 + 4 + MODEL_LEN + CTX_LEN) =
      payloadPreAuth F now (some model) ts (some ctxs) := by
    rw [hraw, show (2 + 4 + MODEL_LEN + CTX_LEN : Nat) = 30 from rfl, buildPayload_take30]
  have htake2 : raw.take 2 = MAGIC := by
    have h2 : (raw.take 30).take 2 = raw.take 2 := by
      rw [List.take_take]
      norm_num
    rw [← h2, hraw, buildPayload_take30]
    rfl
  simp only [parsePayload]
  rw [if_neg (show ¬ raw.length < PAYLOAD_BYTES by rw [hlen]; exact lt_irrefl _)]
  rw [hpl, htake2, if_neg (by simp), htag, htake30, if_neg (by simp)]
  rw [hdrop2, beToNat_be32 _ (by rw [htsn]; exact htlt), htsn]
  rw [hdrop6, hmB, rstripZero_append_replicate, rstripZero_of_getLast _ hm3,
    utf8Decode_encode]
  rw [hdrop22, hcB, rstripZero_append_replicate, rstripZero_of_getLast _ hc3,
    utf8Decode_encode]
  have hmne : model ≠ "" := fun he => hm1 (by rw [he]; rfl)
  have hcne : ctxs ≠ "" := fun he => hc1 (by rw [he]; rfl)
  simp [strOrNone, hmne, hcne]

end WM

namespace WM

/-! ## Claim C10 — the text embedder only appends zero-width characters -/

/-- Strings are equal when their character lists are. -/
theorem stringDataExt (s t : String) (h : s.data = t.data) : s = t := by
  cases s
  cases t
  exact congrArg String.mk h

theorem stripZwText_data (s : String) :
    (stripZwText s).data = s.data.filter (fun c => !zwSet.contains c) := rfl

theorem stripZwText_of_nozw (s : String) (h : ∀ c ∈ s.data, ¬ zwSet.contains c = true) :
    stripZwText s = s := by
  apply stringDataExt
  rw [stripZwText_data]
  apply List.filter_eq_self.mpr
  intro c hc
  simpa using h c hc

/-- Every character that `zwEnc` emits is a zero-width character. -/
theorem zwEnc_mem (b0 b1 : Nat) : zwSet.contains (zwEnc b0 b1) = true := by
  rw [zwEnc]
  split_ifs <;> decide

theorem zwStrFor_mem (bits : List Nat) :
    ∀ (k bitI : Nat), ∀ c ∈ (zwStrFor bits k bitI).1, zwSet.contains c = true := by
  intro k
  induction k with
  | zero => intro bitI c hc; simp [zwStrFor] at hc
  | succ n ih =>
    intro bitI c hc
    rw [zwStrFor] at hc
    split_ifs at hc
    · simp only [List.mem_cons] at hc
      rcases hc with rfl | hc
      · exact zwEnc_mem ..
      · exact ih _ c hc
    · simp only [List.mem_cons] at hc
      rcases hc with rfl | hc
      · exact zwEnc_mem ..
      · exact ih _ c hc
    · exact ih _ c hc

/-- The append-only invariant of the embedding loops: every output token is
the original token with zero-width characters appended. -/
theorem embedCopyFold_inv (tokens : List String) (bits : List Nat) (zw : Nat) :
    ∀ (ccl : List Nat) (out : List String) (bitI : Nat),
      out.length = tokens.length →
      (∀ i : Nat, ∃ zws : List Char, (∀ c ∈ zws, zwSet.contains c = true) ∧
        (out.getD i "").data = (tokens.getD i "").data ++ zws) →
      (embedCopyFold tokens bits zw ccl (out, bitI)).1.length = tokens.length ∧
      (∀ i : Nat, ∃ zws : List Char, (∀ c ∈ zws, zwSet.contains c = true) ∧
        ((embedCopyFold tokens bits zw ccl (out, bitI)).1.getD i "").data =
          (tokens.getD i "").data ++ zws) := by
  intro ccl
  induction ccl with
  | nil => intro out bitI hlen hinv; exact ⟨hlen, hinv⟩
  | cons ci rest ih =>
    intro out bitI hlen hinv
    rw [embedCopyFold]
    by_cases hz : (zwStrFor bits zw bitI).1.isEmpty
    · rw [if_pos hz]
      exact ih out _ hlen hinv
    · rw [if_neg hz]
      apply ih
      · simpa using hlen
      · intro i
        by_cases hci : ci = i
        · subst hci
          by_cases hlt : ci < out.length
          · refine ⟨(zwStrFor bits zw bitI).1, zwStrFor_mem bits zw bitI, ?_⟩
            rw [List.getD_eq_getElem?_getD, List.getElem?_set_self', 
              List.getElem?_eq_getElem hlt]
            simp [String.data_append]
          · have hset : out.set ci (tokens.getD ci "" ++ String.mk (zwStrFor bits zw bitI).1)
                = out := List.set_eq_of_length_le (by omega)
            rw [hset]
            exact hinv ci
        · refine (hinv i).imp (fun zws hz2 => ⟨hz2.1, ?_⟩)
          rw [List.getD_eq_getElem?_getD, List.getElem?_set_ne hci,
            ← List.getD_eq_getElem?_getD]
          exact hz2.2

end WM

namespace WM

/-- Tokens produced by the splitter are nonempty and whitespace-free. -/
theorem pySplitAux_props :
    ∀ (cs acc : List Char), (∀ c ∈ acc, ¬ pyIsSpace c = true) →
      ∀ l ∈ pySplitAux cs acc, l ≠ [] ∧ ∀ c ∈ l, ¬ pyIsSpace c = true := by
  intro cs
  induction cs with
  | nil =>
    intro acc hacc l hl
    rw [pySplitAux] at hl
    split_ifs at hl with he
    · simp at hl
    · simp only [List.mem_singleton] at hl
      subst hl
      refine ⟨by simpa using he, ?_⟩
      intro c hc
      exact hacc c (by simpa using hc)
  | cons c rest ih =>
    intro acc hacc l hl
    rw [pySplitAux] at hl
    split_ifs at hl with hsp he
    · exact ih [] (by simp) l hl
    · simp only [List.mem_cons] at hl
      rcases hl with rfl | hl
      · refine ⟨by simpa using he, ?_⟩
        intro d hd
        exact hacc d (by simpa using hd)
      · exact ih [] (by simp) l hl
    · refine ih (c :: acc) ?_ l hl
      intro d hd
      rcases List.mem_cons.mp hd with rfl | hd
      · exact hsp
      · exact hacc d hd

/-- Every character of a token comes from the split input or accumulator. -/
theorem pySplitAux_chars :
    ∀ (cs acc : List Char), ∀ l ∈ pySplitAux cs acc, ∀ c ∈ l, c ∈ cs ∨ c ∈ acc := by
  intro cs
  induction cs with
  | nil =>
    intro acc l hl c hc
    rw [pySplitAux] at hl
    split_ifs at hl
    · simp at hl
    · simp only [List.mem_singleton] at hl
      subst hl
      exact Or.inr (by simpa using hc)
  | cons a rest ih =>
    intro acc l hl c hc
    rw [pySplitAux] at hl
    split_ifs at hl
    · rcases ih [] l hl c hc with h | h
      · exact Or.inl (List.mem_cons_of_mem a h)
      · simp at h
    · simp only [List.mem_cons] at hl
      rcases hl with rfl | hl
      · exact Or.inr (by simpa using hc)
      · rcases ih [] l hl c hc with h | h
        · exact Or.inl (List.mem_cons_of_mem a h)
        · simp at h
    · rcases ih (a :: acc) l hl c hc with h | h
      · exact Or.inl (List.mem_cons_of_mem a h)
      · rcases List.mem_cons.mp h with rfl | h
        · exact Or.inl (List.mem_cons_self ..)
        · exact Or.inr h

/-- The splitter consumes a whitespace-free word into the accumulator. -/
theorem pySplitAux_word :
    ∀ (w cs acc : List Char), (∀ c ∈ w, ¬ pyIsSpace c = true) →
      pySplitAux (w ++ cs) acc = pySplitAux cs (w.reverse ++ acc) := by
  intro w
  induction w with
  | nil => intro cs acc _; simp
  | cons c w' ih =>
    intro cs acc hw
    rw [List.cons_append, pySplitAux,
      if_neg (by simpa using hw c (List.mem_cons_self ..)),
      ih cs (c :: acc) (fun d hd => hw d (List.mem_cons_of_mem c hd))]
    simp

/-- Splitting the space-join of nonempty whitespace-free tokens recovers
the tokens. -/
theorem pySplit_joinSpace :
    ∀ ts : List String,
      (∀ t ∈ ts, t.data ≠ [] ∧ ∀ c ∈ t.data, ¬ pyIsSpace c = true) →
      pySplit (joinSpace ts) = ts := by
  intro ts
  induction ts with
  | nil => intro _; rfl
  | cons t rest ih =>
    intro hts
    obtain ⟨ht1, ht2⟩ := hts t (List.mem_cons_self ..)
    cases rest with
    | nil =>
      show List.map String.mk (pySplitAux t.data []) = [t]
      rw [← List.append_nil t.data, pySplitAux_word t.data [] [] ht2,
        pySplitAux, if_neg (by simpa using ht1)]
      simp only [List.map_cons, List.map_nil, List.append_nil, List.reverse_reverse]
    | cons u rest' =>
      have hdata : (t ++ " " ++ joinSpace (u :: rest')).data =
          t.data ++ (' ' :: (joinSpace (u :: rest')).data) := by
        rw [String.data_append, String.data_append, List.append_assoc]
        rfl
      show List.map String.mk
        (pySplitAux (t ++ " " ++ joinSpace (u :: rest')).data []) = t :: u :: rest'
      rw [hdata, pySplitAux_word t.data _ [] ht2,
        pySplitAux, if_pos (by decide), if_neg (by simpa using ht1), List.map_cons]
      have hrec := ih (fun v hv => hts v (List.mem_cons_of_mem t hv))
      rw [pySplit] at hrec
      rw [hrec]
      congr 1
      apply stringDataExt
      simp

end WM

namespace WM

theorem stripZwText_joinSpace : ∀ ts : List String,
    stripZwText (joinSpace ts) = joinSpace (ts.map stripZwText) := by
  intro ts
  induction ts with
  | nil => rfl
  | cons t rest ih =>
    cases rest with
    | nil => rfl
    | cons u rest' =>
      show stripZwText (t ++ " " ++ joinSpace (u :: rest')) =
        stripZwText t ++ " " ++ joinSpace ((u :: rest').map stripZwText)
      apply stringDataExt
      rw [stripZwText_data, String.data_append, String.data_append,
        List.filter_append, List.filter_append, String.data_append,
        String.data_append, ← ih, stripZwText_data, stripZwText_data]
      rfl

theorem map_strip_of_inv (tokens out : List String)
    (hlen : out.length = tokens.length)
    (hinv : ∀ i : Nat, ∃ zws : List Char, (∀ c ∈ zws, zwSet.contains c = true) ∧
      (out.getD i "").data = (tokens.getD i "").data ++ zws)
    (htok : ∀ t ∈ tokens, ∀ c ∈ t.data, ¬ zwSet.contains c = true) :
    out.map stripZwText = tokens := by
  apply List.ext_getElem?
  intro i
  rw [List.getElem?_map]
  by_cases hi : i < tokens.length
  · have hio : i < out.length := by omega
    obtain ⟨zws, hzw, heq⟩ := hinv i
    rw [List.getD_eq_getElem?_getD, List.getD_eq_getElem?_getD,
      List.getElem?_eq_getElem hio, List.getElem?_eq_getElem hi] at heq
    simp only [Option.getD_some] at heq
    rw [List.getElem?_eq_getElem hio, List.getElem?_eq_getElem hi]
    simp only [Option.map_some']
    congr 1
    apply stringDataExt
    rw [stripZwText_data, heq, List.filter_append,
      List.filter_eq_self.mpr (fun c hc => by
        simpa using htok _ (List.getElem_mem hi) c hc),
      List.filter_eq_nil_iff.mpr (fun c hc => by simpa using hzw c hc),
      List.append_nil]
  · rw [List.getElem?_eq_none (by omega), List.getElem?_eq_none (by omega)]
    rfl

/-- C10 (amended): for any input text containing none of the four
zero-width code points, removing all zero-width code points from the
embedder's output and whitespace-splitting recovers exactly `text.split()`
(for texts that do contain zero-width code points those are also removed,
so the claim as stated fails; see the counterexample). -/
theorem claim_C10_amended (F : String → Option Int) (now : Int) (text : String)
    (key : List Nat) (model : Option String) (ts : String) (ctx : Option String)
    (h : ∀ c ∈ text.data, ¬ zwSet.contains c = true) :
    pySplit (stripZwText (embedTextWatermark F now text key model ts ctx)) =
      pySplit text := by
  rw [embedTextWatermark]
  by_cases htok : (pySplit text).isEmpty
  · rw [if_pos htok, stripZwText_of_nozw text h]
  · rw [if_neg htok]
    have hmem : ∀ t ∈ pySplit text, ∃ l ∈ pySplitAux text.data [], t = String.mk l := by
      intro t ht
      rw [pySplit] at ht
      obtain ⟨l, hl, rfl⟩ := List.mem_map.mp ht
      exact ⟨l, hl, rfl⟩
    have htfree : ∀ t ∈ pySplit text, ∀ c ∈ t.data, ¬ zwSet.contains c = true := by
      intro t ht c hc
      obtain ⟨l, hl, rfl⟩ := hmem t ht
      rcases pySplitAux_chars text.data [] l hl c hc with hc2 | hc2
      · exact h c hc2
      · simp at hc2
    have hprops : ∀ t ∈ pySplit text, t.data ≠ [] ∧
        ∀ c ∈ t.data, ¬ pyIsSpace c = true := by
      intro t ht
      obtain ⟨l, hl, rfl⟩ := hmem t ht
      exact pySplitAux_props text.data [] (by simp) l hl
    have hfold : ∀ (copies : List (List Nat)) (out : List String),
        out.length = (pySplit text).length →
        (∀ i : Nat, ∃ zws : List Char, (∀ c ∈ zws, zwSet.contains c = true) ∧
          (out.getD i "").data = ((pySplit text).getD i "").data ++ zws) →
        ((copies.foldl (fun out ccl =>
            if ccl.isEmpty then out
            else
              (embedCopyFold (pySplit text)
                (toBits (buildPayload F now model ts key ctx))
                (max 1 (pyCeilDiv ((PAYLOAD_BITS + 1) / 2) ccl.length))
                ccl (out, 0)).1) out).length = (pySplit text).length) ∧
        (∀ i : Nat, ∃ zws : List Char, (∀ c ∈ zws, zwSet.contains c = true) ∧
          ((copies.foldl (fun out ccl =>
            if ccl.isEmpty then out
            else
              (embedCopyFold (pySplit text)
                (toBits (buildPayload F now model ts key ctx))
                (max 1 (pyCeilDiv ((PAYLOAD_BITS + 1) / 2) ccl.length))
                ccl (out, 0)).1) out).getD i "").data =
            ((pySplit text).getD i "").data ++ zws) := by
      intro copies
      induction copies with
      | nil => intro out h1 h2; exact ⟨h1, h2⟩
      | cons ccl rest ihc =>
        intro out h1 h2
        rw [List.foldl_cons]
        by_cases hc : ccl.isEmpty
        · rw [if_pos hc]
          exact ihc out h1 h2
        · rw [if_neg hc]
          obtain ⟨g1, g2⟩ := embedCopyFold_inv (pySplit text)
            (toBits (buildPayload F now model ts key ctx))
            (max 1 (pyCeilDiv ((PAYLOAD_BITS + 1) / 2) ccl.length)) ccl out 0 h1 h2
          exact ihc _ g1 g2
    obtain ⟨hlenO, hinvO⟩ := hfold _ (pySplit text) rfl
      (fun i => ⟨[], by simp, by simp⟩)
    rw [stripZwText_joinSpace, map_strip_of_inv (pySplit text) _ hlenO hinvO htfree,
      pySplit_joinSpace (pySplit text) hprops]

end WM

namespace WM

/-- Witness for C1 (amended) at concrete inputs. -/
theorem claim_C1_witness :
    (fun _ : String => some (1704067200 : Int)) "2024-01-01T00:00:00+00:00"
        = some 1704067200 ∧
    parsePayload (buildPayload (fun _ => some 1704067200) 0 (some "gpt")
        "2024-01-01T00:00:00+00:00" [107] (some "med")) [107] =
      some ⟨some "gpt", ((1704067200 : Int).emod 4294967296).toNat, some "med", true⟩ :=
  ⟨rfl, claim_C1_amended (fun _ => some 1704067200) 0 "gpt"
    "2024-01-01T00:00:00+00:00" "med" [107] 1704067200 rfl
    (by decide) (by decide) (by decide) (by decide) (by decide) (by decide)⟩

/-- C1 counterexample: a 17-byte model name is truncated to 16 bytes, so
the parsed model name differs from the input. -/
theorem claim_C1_counterexample :
    parsePayload (buildPayload (fun _ => some 1704067200) 0 (some "abcdefghijklmnopq")
        "2024-01-01T00:00:00+00:00" [107] (some "med")) [107] =
      some ⟨some "abcdefghijklmnop", 1704067200, some "med", true⟩ ∧
    some "abcdefghijklmnop" ≠ some "abcdefghijklmnopq" := by
  constructor
  · rfl
  · decide

/-- C3 counterexample: the keys `b"k"` and `b"k\x00"` differ as byte
strings but are HMAC-equivalent (zero padding to the block size), so the
payload built under the first parses successfully under the second. -/
theorem claim_C3_counterexample :
    ([107] : List Nat) ≠ [107, 0] ∧
    (parsePayload (buildPayload (fun _ => some 1704067200) 0 (some "gpt")
        "2024-01-01T00:00:00+00:00" [107] (some "med")) [107, 0]).isSome = true := by
  constructor
  · decide
  · rfl

/-- Witness for C10 (amended) on a concrete zero-width-free text. -/
theorem claim_C10_witness :
    (∀ c ∈ ("hello world" : String).data, ¬ zwSet.contains c = true) ∧
    pySplit (stripZwText (embedTextWatermark (fun _ => some 5) 0 "hello world"
        [107] none "" none)) = pySplit "hello world" :=
  ⟨by decide,
   claim_C10_amended (fun _ => some 5) 0 "hello world" [107] none "" none (by decide)⟩

/-- C10 counterexample: a text containing U+200B; stripping zero-width
code points from the embedder output also strips the original one, so the
recovered token sequence differs from `text.split()`. -/
theorem claim_C10_counterexample :
    pySplit (stripZwText (embedTextWatermark (fun _ => none) 0 "a​b"
        [107] none "" none)) ≠ pySplit "a​b" := by
  decide

/-- C2: the failing input for the no-carrier fallback.  Under key `b"k"`
the word "a" is not a carrier, so `embed_text_watermark` falls back to
attaching the payload to all (non-carrier) words — the output differs from
the input — but `verify_text_watermark` skips non-carrier tokens and
reports `signature_valid = false` (for every outcome of the statistical
layer, which cannot make `signature_valid` true). -/
theorem claim_C2_failing_input :
    embedTextWatermark (fun _ => none) 0 "a" [107] none "" none ≠ "a" ∧
    (∀ zGt : Bool, ∀ statConf : ℚ,
      (verifyTextWatermark zGt statConf
        (embedTextWatermark (fun _ => none) 0 "a" [107] none "" none)
        [107]).signature_valid = false) := by
  constructor
  · decide
  · intro zGt statConf
    rfl

end WM

namespace WM

/-! ## Claim C7 — narrow-band audio fallback -/

theorem exceptBindOk {α β : Type} (a : α) (f : α → Except PyErr β) :
    (Except.ok a) >>= f = f a := rfl

theorem exceptBindErr {α β : Type} (e : PyErr) (f : α → Except PyErr β) :
    (Except.error e : Except PyErr α) >>= f = .error e := rfl

theorem pyGet_ok {α : Type} (xs : List α) (f : Nat) (h : f < xs.length) :
    pyGet xs f = .ok (xs.get ⟨f, h⟩) := by
  rw [pyGet, dif_pos h]

theorem pyGet_err {α : Type} (xs : List α) (f : Nat) (h : xs.length ≤ f) :
    pyGet xs f = .error .indexError := by
  rw [pyGet, dif_neg (by omega)]

theorem mapM_replicate_ok {α β : Type} (g : α → Except PyErr β) (a : α) (b : β)
    (h : g a = .ok b) : ∀ n, (List.replicate n a).mapM g = .ok (List.replicate n b) := by
  intro n
  induction n with
  | zero => rfl
  | succ k ih =>
    rw [List.replicate_succ, List.mapM_cons, h, exceptBindOk, ih, exceptBindOk,
      List.replicate_succ]
    rfl

theorem mapM_replicate_err {α β : Type} (g : α → Except PyErr β) (a : α) (e : PyErr)
    (h : g a = .error e) (n : Nat) (hn : 0 < n) :
    (List.replicate n a).mapM g = (.error e : Except PyErr (List β)) := by
  cases n with
  | zero => omega
  | succ k => rw [List.replicate_succ, List.mapM_cons, h, exceptBindErr]

theorem extractQimAud_replicate_ok (X : List ℚ) (f : Nat) (hf : f < X.length)
    (step : ℚ) (n : Nat) :
    extractQimAud X (List.replicate n f) step =
      .ok (List.replicate n ((pyRoundInt (|X.get ⟨f, hf⟩| / step)).emod 2).toNat) := by
  apply mapM_replicate_ok
  rw [pyGet_ok X f hf]
  rfl

theorem extractQimAud_replicate_err (X : List ℚ) (f : Nat) (hf : X.length ≤ f)
    (step : ℚ) (n : Nat) (hn : 0 < n) :
    extractQimAud X (List.replicate n f) step = .error .indexError := by
  apply mapM_replicate_err _ _ _ _ _ hn
  rw [pyGet_err X f hf]
  rfl

theorem embedQimAudAux_replicate_ok (bits : List Nat) (step : ℚ) (f : Nat) :
    ∀ (n i : Nat) (X : List ℚ), f < X.length →
      ∃ Y, embedQimAudAux bits step (List.replicate n f) i X = .ok Y ∧
        Y.length = X.length := by
  intro n
  induction n with
  | zero => intro i X _; exact ⟨X, rfl, rfl⟩
  | succ k ih =>
    intro i X hf
    rw [List.replicate_succ, embedQimAudAux]
    by_cases hb : bits.length ≤ i
    · rw [if_pos hb]
      exact ⟨X, rfl, rfl⟩
    · rw [if_neg hb, pyGet_ok X f hf]
      obtain ⟨Y, hY, hYl⟩ := ih (i + 1) (X.set f _) (by simpa using hf)
      exact ⟨Y, hY, by simpa using hYl⟩

theorem embedQimAudAux_replicate_err (bits : List Nat) (step : ℚ) (f : Nat)
    (n i : Nat) (X : List ℚ) (hf : X.length ≤ f) (hn : 0 < n)
    (hi : i < bits.length) :
    embedQimAudAux bits step (List.replicate n f) i X = .error .indexError := by
  cases n with
  | zero => omega
  | succ k =>
    rw [List.replicate_succ, embedQimAudAux, if_neg (by omega), pyGet_err X f hf]

/-- C7: on an 8-sample mono clip (5-bin rFFT spectrum) every copy's band
is narrower than 272 bins; copy 2's degenerate fallback positions
(`randint(5, 6)`, all equal to 5) lie outside the spectrum, so both the
QIM embed layer and full verification raise `IndexError` instead of
returning a result. -/
theorem claim_C7_short_audio (npRandint npUnique : Nat → Nat → Nat → Nat → List Nat)
    (hrand : ∀ seed low size, npRandint seed low (low + 1) size = List.replicate size low)
    (statDetected : Bool) (statConf : ℚ) (key : List Nat) (X : List ℚ)
    (hX : X.length = 5) (bits : List Nat) (hb : 0 < bits.length) :
    (audBandSize 0 X.length < (PAYLOAD_BITS : Int) ∧
     audBandSize 1 X.length < (PAYLOAD_BITS : Int) ∧
     audBandSize 2 X.length < (PAYLOAD_BITS : Int)) ∧
    verifyAudioWatermark npRandint npUnique statDetected statConf key X
      = .error .indexError ∧
    audioEmbedQim npRandint npUnique key bits X = .error .indexError := by
  have hp0 : audQimPositions npRandint npUnique key X.length 0
      = List.replicate PAYLOAD_BITS 1 := by
    rw [hX]
    simp only [audQimPositions]
    rw [if_pos (by decide)]
    exact hrand (audQimSeed key 0) 1 PAYLOAD_BITS
  have hp1 : audQimPositions npRandint npUnique key X.length 1
      = List.replicate PAYLOAD_BITS 3 := by
    rw [hX]
    simp only [audQimPositions]
    rw [if_pos (by decide)]
    exact hrand (audQimSeed key 1) 3 PAYLOAD_BITS
  have hp2 : audQimPositions npRandint npUnique key X.length 2
      = List.replicate PAYLOAD_BITS 5 := by
    rw [hX]
    simp only [audQimPositions]
    rw [if_pos (by decide)]
    exact hrand (audQimSeed key 2) 5 PAYLOAD_BITS
  have h1lt : (1 : Nat) < X.length := by omega
  have h3lt : (3 : Nat) < X.length := by omega
  have hcopy : audioCopyBits npRandint npUnique key X = .error .indexError := by
    rw [audioCopyBits, show List.range AUD_COPIES = [0, 1, 2] from rfl,
      List.mapM_cons, hp0, extractQimAud_replicate_ok X 1 h1lt _ _, exceptBindOk,
      List.mapM_cons, hp1, extractQimAud_replicate_ok X 3 h3lt _ _, exceptBindOk,
      List.mapM_cons, hp2,
      extractQimAud_replicate_err X 5 (by omega) _ _ (by decide), exceptBindErr,
      exceptBindErr]
    rfl
  refine ⟨by rw [hX]; exact ⟨by decide, by decide, by decide⟩, ?_, ?_⟩
  · rw [verifyAudioWatermark, hcopy]
  · rw [audioEmbedQim, show List.range AUD_COPIES = [0, 1, 2] from rfl,
      List.foldlM_cons, embedQimAud]
    obtain ⟨Y1, hY1, hY1l⟩ :=
      embedQimAudAux_replicate_ok bits _ 1 PAYLOAD_BITS 0 X h1lt
    rw [hp0, hY1, exceptBindOk, List.foldlM_cons, embedQimAud]
    obtain ⟨Y2, hY2, hY2l⟩ :=
      embedQimAudAux_replicate_ok bits _ 3 PAYLOAD_BITS 0 Y1 (by omega)
    rw [hp1, hY2, exceptBindOk, List.foldlM_cons, embedQimAud]
    rw [hp2, embedQimAudAux_replicate_err bits _ 5 PAYLOAD_BITS 0 Y2
      (by omega) (by decide) hb, exceptBindErr]

/-- Witness for C7 at a concrete degenerate instantiation. -/
theorem claim_C7_witness :
    (∀ seed low size : Nat,
      (fun _ low _ size => List.replicate size low) seed low (low + 1) size
        = List.replicate size low) ∧
    verifyAudioWatermark (fun _ low _ size => List.replicate size low)
      (fun _ _ _ _ => []) false 0 [107] [0, 0, 0, 0, 0] = .error .indexError ∧
    audioEmbedQim (fun _ low _ size => List.replicate size low)
      (fun _ _ _ _ => []) [107] [1] [0, 0, 0, 0, 0] = .error .indexError := by
  refine ⟨fun _ _ _ => rfl, ?_, ?_⟩
  · exact (claim_C7_short_audio (fun _ low _ size => List.replicate size low)
      (fun _ _ _ _ => []) (fun _ _ _ => rfl) false 0 [107] [0, 0, 0, 0, 0] rfl
      [1] (by decide)).2.1
  · exact (claim_C7_short_audio (fun _ low _ size => List.replicate size low)
      (fun _ _ _ _ => []) (fun _ _ _ => rfl) false 0 [107] [0, 0, 0, 0, 0] rfl
      [1] (by decide)).2.2

end WM
